import Mathlib

set_option maxRecDepth 2000

/-!
# A formal model of the mini-RPC core

Shallow embedding of the Go sources of the mini-RPC repository:
`protocol/protocol.go` (framer), `codec/binary_codec.go` and `codec/codec.go`
(envelope codecs), `transport/client_transport.go` (multiplexed client
transport), `server/server.go` (dispatcher and business handler) and the
retry middleware.

Modelling conventions:
* a Go byte is a `Nat` (< 256 whenever the code produces it);
* Go strings and byte slices are `List Nat` (a Go string is an arbitrary
  byte string, so both get the same representation);
* fixed-width Go integers are `Nat` (or `Int` for signed arithmetic) with
  an explicit `% 2^w` exactly where Go converts or overflows;
* a Go runtime panic (nil-pointer dereference, slice index out of range)
  is the `none` branch of an `Option`-valued embedding;
* the network is modelled as the byte string written / read, and I/O
  failure points are explicit boolean parameters of the embedding.
-/

namespace MiniRPC

/-- The bytes of an ASCII Lean string literal; used to transcribe the Go
string constants appearing in the sources. -/
def asciiBytes (s : String) : List Nat := s.data.map Char.toNat

/-- `binary.BigEndian.PutUint16` composed with Go's `uint16(·)` conversion:
the two big-endian bytes of `n % 2^16`. -/
def be16 (n : Nat) : List Nat := [n / 256 % 256, n % 256]

/-- `binary.BigEndian.PutUint32` composed with Go's `uint32(·)` conversion:
the four big-endian bytes of `n % 2^32`. -/
def be32 (n : Nat) : List Nat :=
  [n / 2 ^ 24 % 256, n / 2 ^ 16 % 256, n / 256 % 256, n % 256]

/-- `binary.BigEndian.Uint16` of two bytes. -/
def getBe16 (a b : Nat) : Nat := a * 256 + b

/-- `binary.BigEndian.Uint32` of four bytes. -/
def getBe32 (a b c d : Nat) : Nat := ((a * 256 + b) * 256 + c) * 256 + d

/-- `message.RPCMessage` (package `message`): the envelope carried in the
body of request/response frames.  `ServiceMethod` and `Error` are Go
strings, `Payload` a Go byte slice; all three are byte strings here. -/
structure RPCMessage where
  ServiceMethod : List Nat
  Error : List Nat
  Payload : List Nat
deriving DecidableEq

/-- The all-zero `RPCMessage`, i.e. Go's `message.RPCMessage{}`. -/
def RPCMessage.zero : RPCMessage := ⟨[], [], []⟩

namespace BinaryCodec

/-- `BinaryCodec.Encode` (codec/binary_codec.go): writes
`u16 lenMethod | method | u32 lenPayload | payload | u16 lenError | error`
into one pre-sized buffer.  The length prefixes go through Go's
`uint16(·)` / `uint32(·)` conversions (the `%` inside `be16`/`be32`);
the field bytes are copied in full. -/
def Encode (msg : RPCMessage) : List Nat :=
  be16 msg.ServiceMethod.length ++ msg.ServiceMethod
    ++ be32 msg.Payload.length ++ msg.Payload
    ++ be16 msg.Error.length ++ msg.Error

/-- Go slice expression `data[off : off+n]` (with `cap = len`, as for every
buffer this code decodes): `none` models the out-of-range panic. -/
def readSlice (data : List Nat) (off n : Nat) : Option (List Nat) :=
  if off + n ≤ data.length then some ((data.drop off).take n) else none

/-- `binary.BigEndian.Uint16(data[off : off+2])`; `none` models the slice
panic when fewer than two bytes remain. -/
def readU16 (data : List Nat) (off : Nat) : Option Nat :=
  if off + 2 ≤ data.length then
    some (getBe16 (data.getD off 0) (data.getD (off + 1) 0))
  else none

/-- `binary.BigEndian.Uint32(data[off : off+4])`; `none` models the slice
panic when fewer than four bytes remain. -/
def readU32 (data : List Nat) (off : Nat) : Option Nat :=
  if off + 4 ≤ data.length then
    some (getBe32 (data.getD off 0) (data.getD (off + 1) 0)
      (data.getD (off + 2) 0) (data.getD (off + 3) 0))
  else none

/-- `BinaryCodec.Decode` (codec/binary_codec.go) on a `*RPCMessage`
argument.  The Go body contains no error return at all (the only `error`
value the function can produce is the `v` type-assertion failure, which
the embedding's `RPCMessage`-typed argument rules out); every slice
expression can panic instead, which is this function's `none`. -/
def Decode (data : List Nat) : Option RPCMessage :=
  match readU16 data 0 with
  | none => none
  | some strLen =>
    match readSlice data 2 strLen with
    | none => none
    | some sm =>
      match readU32 data (2 + strLen) with
      | none => none
      | some payloadLen =>
        match readSlice data (2 + strLen + 4) payloadLen with
        | none => none
        | some p =>
          match readU16 data (2 + strLen + 4 + payloadLen) with
          | none => none
          | some errLen =>
            match readSlice data (2 + strLen + 4 + payloadLen + 2) errLen with
            | none => none
            | some e => some ⟨sm, e, p⟩

/-- Spec-side characterisation (for the claims, not from the source): the
inputs on which every length prefix of `Decode` is satisfied by the bytes
that remain. -/
def WellFormedInput (data : List Nat) : Prop :=
  2 ≤ data.length ∧
  2 + getBe16 (data.getD 0 0) (data.getD 1 0) + 4 ≤ data.length ∧
  (let m := getBe16 (data.getD 0 0) (data.getD 1 0)
   let p := getBe32 (data.getD (2 + m) 0) (data.getD (2 + m + 1) 0)
     (data.getD (2 + m + 2) 0) (data.getD (2 + m + 3) 0)
   2 + m + 4 + p + 2 ≤ data.length ∧
   2 + m + 4 + p + 2 +
     getBe16 (data.getD (2 + m + 4 + p) 0) (data.getD (2 + m + 4 + p + 1) 0)
     ≤ data.length)

instance (data : List Nat) : Decidable (WellFormedInput data) := by
  unfold WellFormedInput
  exact inferInstance

end BinaryCodec

/-- `protocol.Header` (protocol/protocol.go).  All four fields are
fixed-width Go integers (`byte`, `byte`, `uint32`, `uint32`). -/
structure Header where
  CodecType : Nat
  MsgType : Nat
  Seq : Nat
  BodyLen : Nat
deriving DecidableEq

/-- The range constraints Go's field types impose on a `protocol.Header`
value (`byte`, `byte`, `uint32`, `uint32`). -/
def Header.WF (h : Header) : Prop :=
  h.CodecType < 256 ∧ h.MsgType < 256 ∧ h.Seq < 2 ^ 32 ∧ h.BodyLen < 2 ^ 32

instance (h : Header) : Decidable h.WF := by
  unfold Header.WF
  exact inferInstance

namespace Protocol

/-- `protocol.Encode` (protocol/protocol.go): the byte string written to
the connection — the fixed 14-byte header followed by the body. -/
def Encode (h : Header) (body : List Nat) : List Nat :=
  0x6d :: 0x72 :: 0x70 :: 0x01 :: h.CodecType :: h.MsgType ::
    (be32 h.Seq ++ be32 h.BodyLen ++ body)

/-- The error kinds `protocol.Decode` can produce: the two `io.ReadFull`
failures and the four validation failures, carrying the offending bytes
exactly as the Go `fmt.Errorf` calls do. -/
inductive FrameError where
  | eof
  | unexpectedEOF
  | invalidMagic (b0 b1 b2 : Nat)
  | unsupportedVersion (v : Nat)
  | unsupportedCodecType (c : Nat)
  | unsupportedMsgType (m : Nat)
deriving DecidableEq

/-- One lowercase hex digit (as in Go's `%x`). -/
def hexDigit (n : Nat) : Nat := if n < 10 then 48 + n else 87 + n

/-- A byte rendered by Go's `%x` on a `[]byte`: two lowercase hex digits. -/
def byteHex (b : Nat) : List Nat := [hexDigit (b / 16 % 16), hexDigit (b % 16)]

/-- The `Error()` string of each frame error, transcribed from the
`fmt.Errorf` format strings in protocol/protocol.go and the fixed
messages of `io.EOF` / `io.ErrUnexpectedEOF`. -/
def FrameError.msg : FrameError → List Nat
  | .eof => asciiBytes "EOF"
  | .unexpectedEOF => asciiBytes "unexpected EOF"
  | .invalidMagic b0 b1 b2 =>
      asciiBytes "invalid magic number: " ++ byteHex b0 ++ byteHex b1 ++ byteHex b2
  | .unsupportedVersion v => asciiBytes "unsupported version: " ++ asciiBytes (toString v)
  | .unsupportedCodecType c => asciiBytes "unsupported codec type: " ++ asciiBytes (toString c)
  | .unsupportedMsgType m => asciiBytes "unsupported message type: " ++ asciiBytes (toString m)

/-- `protocol.Decode` (protocol/protocol.go) on a byte stream.  The reader
is the byte string still unread; the result also returns the unconsumed
suffix.  `io.ReadFull` on `n` wanted bytes returns `io.EOF` when the
stream is empty (and `n > 0`), `io.ErrUnexpectedEOF` when it is shorter
than `n`; the four header validations fire in source order. -/
def Decode (stream : List Nat) : Except FrameError (Header × List Nat × List Nat) :=
  if stream.length = 0 then .error .eof
  else if stream.length < 14 then .error .unexpectedEOF
  else
    let b0 := stream.getD 0 0
    let b1 := stream.getD 1 0
    let b2 := stream.getD 2 0
    if ¬(b0 = 0x6d ∧ b1 = 0x72 ∧ b2 = 0x70) then .error (.invalidMagic b0 b1 b2)
    else
      let v := stream.getD 3 0
      if v ≠ 0x01 then .error (.unsupportedVersion v)
      else
        let ct := stream.getD 4 0
        if ct ≠ 0 ∧ ct ≠ 1 then .error (.unsupportedCodecType ct)
        else
          let mt := stream.getD 5 0
          if mt ≠ 0 ∧ mt ≠ 1 ∧ mt ≠ 2 then .error (.unsupportedMsgType mt)
          else
            let seq := getBe32 (stream.getD 6 0) (stream.getD 7 0)
              (stream.getD 8 0) (stream.getD 9 0)
            let bodyLen := getBe32 (stream.getD 10 0) (stream.getD 11 0)
              (stream.getD 12 0) (stream.getD 13 0)
            let rest := stream.drop 14
            if rest.length < bodyLen then
              .error (if rest.length = 0 then .eof else .unexpectedEOF)
            else
              .ok (⟨ct, mt, seq, bodyLen⟩, rest.take bodyLen, rest.drop bodyLen)

/-- Spec-side characterisation (for the claims): a stream whose prefix is
one well-formed frame — correct magic, version `0x01`, codec in `{0,1}`,
message type in `{0,1,2}`, and at least `14 + bodyLen` bytes present. -/
def WellFormedFrame (s : List Nat) : Prop :=
  s.getD 0 0 = 0x6d ∧ s.getD 1 0 = 0x72 ∧ s.getD 2 0 = 0x70 ∧
  s.getD 3 0 = 0x01 ∧ s.getD 4 0 < 2 ∧ s.getD 5 0 < 3 ∧
  14 + getBe32 (s.getD 10 0) (s.getD 11 0) (s.getD 12 0) (s.getD 13 0) ≤ s.length

instance (s : List Nat) : Decidable (WellFormedFrame s) := by
  unfold WellFormedFrame
  exact inferInstance

end Protocol

/-! ## UTF-8 (model of Go's `unicode/utf8` on byte strings)

Needed because `JSONCodec` delegates to `encoding/json`, whose observable
behaviour on the `RPCMessage` struct — string escaping with HTML escaping
on, coercion of invalid UTF-8 to U+FFFD, base64 for `[]byte` — decides the
codec round-trip claim. -/

/-- `utf8.EncodeRune` for a Unicode scalar value (the only runes produced
by the functions below). -/
def utf8EncodeChar (c : Nat) : List Nat :=
  if c < 0x80 then [c]
  else if c < 0x800 then [0xC0 + c / 64, 0x80 + c % 64]
  else if c < 0x10000 then [0xE0 + c / 4096, 0x80 + c / 64 % 64, 0x80 + c % 64]
  else [0xF0 + c / 262144, 0x80 + c / 4096 % 64, 0x80 + c / 64 % 64, 0x80 + c % 64]

/-- A UTF-8 continuation byte. -/
def isCont (b : Nat) : Bool := 0x80 ≤ b && b < 0xC0

/-- The second-byte acceptance range of a three-byte sequence headed by
`b0`, together with the continuation check on `b2` (as in Go's
`utf8.acceptRanges`: `0xE0` requires `A0..BF`, `0xED` requires `80..9F`
— excluding surrogates and overlong forms). -/
def threeOk (b0 b1 b2 : Nat) : Bool :=
  (if b0 = 0xE0 then 0xA0 ≤ b1 && b1 < 0xC0
   else if b0 = 0xED then 0x80 ≤ b1 && b1 < 0xA0
   else isCont b1) && isCont b2

/-- Acceptance for a four-byte sequence headed by `b0` (`0xF0` requires
`90..BF`, `0xF4` requires `80..8F`). -/
def fourOk (b0 b1 b2 b3 : Nat) : Bool :=
  (if b0 = 0xF0 then 0x90 ≤ b1 && b1 < 0xC0
   else if b0 = 0xF4 then 0x80 ≤ b1 && b1 < 0x90
   else isCont b1) && isCont b2 && isCont b3

/-- The byte strings that are valid UTF-8: concatenations of encodings of
Unicode scalar values, exactly the strings Go's escaper passes through
unchanged modulo explicit escapes. -/
inductive Utf8Valid : List Nat → Prop where
  | nil : Utf8Valid []
  | app (c : Nat) (rest : List Nat) :
      (c < 0xD800 ∨ (0xE000 ≤ c ∧ c < 0x110000)) → Utf8Valid rest →
      Utf8Valid (utf8EncodeChar c ++ rest)

/-- The UTF-8 bytes of U+FFFD, the replacement character. -/
def fffdBytes : List Nat := [239, 191, 189]

namespace GoJson

/-- One lowercase hex digit, as produced by `encoding/json`'s `\u00xx`
escapes. -/
def jHexDigit (n : Nat) : Nat := if n < 10 then 48 + n else 87 + n

/-- The escape `encoding/json` emits for an unsafe ASCII byte: the named
escapes for `\"`, `\\`, `\n`, `\r`, `\t`, and `\u00xx` for everything
else (control bytes and the HTML-escaped `<`, `>`, `&`). -/
def escapeByte (b : Nat) : List Nat :=
  if b = 92 then [92, 92]
  else if b = 34 then [92, 34]
  else if b = 10 then [92, 110]
  else if b = 13 then [92, 114]
  else if b = 9 then [92, 116]
  else [92, 117, 48, 48, jHexDigit (b / 16), jHexDigit (b % 16)]

/-- `encoding/json`'s `htmlSafeSet` restricted to ASCII: printable bytes
other than `"`, `\`, `<`, `>`, `&` pass through unescaped. -/
def htmlSafe (b : Nat) : Bool :=
  0x20 ≤ b && b ≠ 34 && b ≠ 92 && b ≠ 60 && b ≠ 62 && b ≠ 38

/-- The six-byte escape sequence for U+FFFD (backslash, u, f, f, f, d). -/
def fffdEsc : List Nat := [92, 117, 102, 102, 102, 100]

/-- The six-byte escape sequence for U+2028. -/
def u2028Esc : List Nat := [92, 117, 50, 48, 50, 56]

/-- The six-byte escape sequence for U+2029. -/
def u2029Esc : List Nat := [92, 117, 50, 48, 50, 57]

/-- The chunk emitted for one ASCII byte. -/
def asciiChunk (b : Nat) : List Nat := if htmlSafe b then [b] else escapeByte b

/-- The chunk emitted for a validly-encoded three-byte rune. -/
def threeChunk (b0 b1 b2 : Nat) : List Nat :=
  let r := ((b0 - 0xE0) * 64 + (b1 - 0x80)) * 64 + (b2 - 0x80)
  if r = 0x2028 then u2028Esc else if r = 0x2029 then u2029Esc else [b0, b1, b2]

/-- Byte-level model of `encoding/json`'s string escaper with the default
`escapeHTML = true`: safe ASCII passes through; unsafe ASCII uses
`escapeByte`; each invalid UTF-8 byte becomes the six-byte U+FFFD escape
(one input byte consumed, as `utf8.DecodeRune` returns size 1); the runes
U+2028 and U+2029 are escaped; every other multi-byte rune passes through
verbatim.  One fuel unit is spent per rune, so the recursion is
structural in the fuel and any fuel above the input length is enough. -/
def escChar (k : List Nat → List Nat) (b0 : Nat) (rest : List Nat) : List Nat :=
  if b0 < 0x80 then asciiChunk b0 ++ k rest
  else if b0 < 0xC2 then fffdEsc ++ k rest
  else if b0 < 0xE0 then
    match rest with
    | b1 :: r1 =>
      if isCont b1 then b0 :: b1 :: k r1
      else fffdEsc ++ k rest
    | [] => fffdEsc
  else if b0 < 0xF0 then
    match rest with
    | b1 :: b2 :: r2 =>
      if threeOk b0 b1 b2 then threeChunk b0 b1 b2 ++ k r2
      else fffdEsc ++ k rest
    | _ => fffdEsc ++ k rest
  else if b0 < 0xF5 then
    match rest with
    | b1 :: b2 :: b3 :: r3 =>
      if fourOk b0 b1 b2 b3 then b0 :: b1 :: b2 :: b3 :: k r3
      else fffdEsc ++ k rest
    | _ => fffdEsc ++ k rest
  else fffdEsc ++ k rest

def jsonEscapeF : Nat → List Nat → List Nat
  | 0, _ => []
  | _, [] => []
  | fuel + 1, b0 :: rest => escChar (jsonEscapeF fuel) b0 rest

/-- The escaper at its canonical fuel. -/
def jsonEscape (l : List Nat) : List Nat := jsonEscapeF (l.length + 1) l

/-- The chunk the escaper emits for one Unicode scalar value: what
`jsonEscapeF` does to `utf8EncodeChar c ++ rest` in one step. -/
def runeChunk (c : Nat) : List Nat :=
  if c < 0x80 then asciiChunk c
  else if c = 0x2028 then u2028Esc
  else if c = 0x2029 then u2029Esc
  else utf8EncodeChar c

/-- One character of the standard base64 alphabet. -/
def b64Char (n : Nat) : Nat :=
  if n < 26 then 65 + n
  else if n < 52 then 71 + n
  else if n < 62 then n - 4
  else if n = 62 then 43
  else 47

/-- `base64.StdEncoding.EncodeToString`, used by `encoding/json` for
`[]byte` fields. -/
def base64Encode : List Nat → List Nat
  | a :: b :: c :: rest =>
      b64Char (a / 4) :: b64Char (a % 4 * 16 + b / 16) ::
        b64Char (b % 16 * 4 + c / 64) :: b64Char (c % 64) :: base64Encode rest
  | [a, b] => [b64Char (a / 4), b64Char (a % 4 * 16 + b / 16), b64Char (b % 16 * 4), 61]
  | [a] => [b64Char (a / 4), b64Char (a % 4 * 16), 61, 61]
  | [] => []

/-- Value of one base64 alphabet character. -/
def b64Val (c : Nat) : Option Nat :=
  if 65 ≤ c ∧ c ≤ 90 then some (c - 65)
  else if 97 ≤ c ∧ c ≤ 122 then some (c - 71)
  else if 48 ≤ c ∧ c ≤ 57 then some (c + 4)
  else if c = 43 then some 62
  else if c = 47 then some 63
  else none

/-- `base64.StdEncoding` decoding: four-character groups, `=` padding only
in the final group. -/
def base64Decode : List Nat → Option (List Nat)
  | [] => some []
  | c1 :: c2 :: c3 :: c4 :: rest =>
      (match b64Val c1, b64Val c2 with
       | some v1, some v2 =>
         if c3 = 61 then
           if c4 = 61 ∧ rest = [] then some [v1 * 4 + v2 / 16] else none
         else
           match b64Val c3 with
           | none => none
           | some v3 =>
             if c4 = 61 then
               if rest = [] then some [v1 * 4 + v2 / 16, v2 % 16 * 16 + v3 / 4] else none
             else
               match b64Val c4, base64Decode rest with
               | some v4, some tail =>
                 some ((v1 * 4 + v2 / 16) :: (v2 % 16 * 16 + v3 / 4) :: (v3 % 4 * 64 + v4) :: tail)
               | _, _ => none
       | _, _ => none)
  | _ => none

/-- A byte string between quotes. -/
def jsonQuote (s : List Nat) : List Nat := 34 :: (s ++ [34])

/-- Byte-level model of `json.Marshal` applied to a `*message.RPCMessage`:
the object with the three exported fields in declaration order (the
struct has no tags), string fields escaped by `jsonEscape`, the `[]byte`
payload base64-encoded.  `json.Marshal` on this struct cannot fail. -/
def Marshal (m : RPCMessage) : List Nat :=
  123 :: (jsonQuote (asciiBytes "ServiceMethod") ++ [58]
    ++ jsonQuote (jsonEscape m.ServiceMethod) ++ [44]
    ++ jsonQuote (asciiBytes "Error") ++ [58]
    ++ jsonQuote (jsonEscape m.Error) ++ [44]
    ++ jsonQuote (asciiBytes "Payload") ++ [58]
    ++ jsonQuote (base64Encode m.Payload) ++ [125])

/-- JSON whitespace. -/
def isWs (b : Nat) : Bool := b = 32 || b = 9 || b = 10 || b = 13

/-- Strip leading JSON whitespace. -/
def skipWs : List Nat → List Nat
  | [] => []
  | b :: r => if isWs b then skipWs r else b :: r

/-- Value of one hex digit (both cases), as in `encoding/json`'s `getu4`. -/
def hexVal (c : Nat) : Option Nat :=
  if 48 ≤ c ∧ c ≤ 57 then some (c - 48)
  else if 97 ≤ c ∧ c ≤ 102 then some (c - 87)
  else if 65 ≤ c ∧ c ≤ 70 then some (c - 55)
  else none

/-- Four hex digits. -/
def hex4 (a b c d : Nat) : Option Nat :=
  match hexVal a, hexVal b, hexVal c, hexVal d with
  | some x, some y, some z, some w => some (((x * 16 + y) * 16 + z) * 16 + w)
  | _, _, _, _ => none

/-- Prepend decoded bytes to the string being accumulated by the
unquoter. -/
def prependStr (bs : List Nat) (r : Option (List Nat × List Nat)) :
    Option (List Nat × List Nat) :=
  r.map fun pr => (bs ++ pr.1, pr.2)

/-- Model of `encoding/json`'s string unquoting (scanner + `unquoteBytes`),
positioned just after the opening quote; returns the decoded content and
the bytes after the closing quote.  Escapes are the eight named ones and
`\uXXXX` with UTF-16 surrogate-pair handling (unpaired surrogates decode
to U+FFFD); raw control bytes are a syntax error; invalid UTF-8 bytes
decode to U+FFFD; multi-byte runes are decoded and re-encoded.  One fuel
unit is spent per rune or escape, so the recursion is structural in the
fuel and any fuel above the input length is enough. -/
def parseUEscape (k : List Nat → Option (List Nat × List Nat)) (r : List Nat) :
    Option (List Nat × List Nat) :=
  match r with
  | h1 :: h2 :: h3 :: h4 :: rr =>
    (match hex4 h1 h2 h3 h4 with
     | none => none
     | some v =>
       if v < 0xD800 ∨ 0xE000 ≤ v then
         prependStr (utf8EncodeChar v) (k rr)
       else if v < 0xDC00 then
         match rr with
         | c1 :: c2 :: g1 :: g2 :: g3 :: g4 :: r2 =>
           if c1 = 92 ∧ c2 = 117 then
             match hex4 g1 g2 g3 g4 with
             | some w =>
               if 0xDC00 ≤ w ∧ w < 0xE000 then
                 prependStr
                   (utf8EncodeChar (0x10000 + (v - 0xD800) * 0x400 + (w - 0xDC00)))
                   (k r2)
               else prependStr fffdBytes (k rr)
             | none => prependStr fffdBytes (k rr)
           else prependStr fffdBytes (k rr)
         | _ => prependStr fffdBytes (k rr)
       else prependStr fffdBytes (k rr))
  | _ => none

def parseEscape (k : List Nat → Option (List Nat × List Nat)) (rest : List Nat) :
    Option (List Nat × List Nat) :=
  match rest with
  | [] => none
  | e :: r =>
    if e = 34 then prependStr [34] (k r)
    else if e = 92 then prependStr [92] (k r)
    else if e = 47 then prependStr [47] (k r)
    else if e = 98 then prependStr [8] (k r)
    else if e = 102 then prependStr [12] (k r)
    else if e = 110 then prependStr [10] (k r)
    else if e = 114 then prependStr [13] (k r)
    else if e = 116 then prependStr [9] (k r)
    else if e = 117 then parseUEscape k r
    else none

def parseRawChar (k : List Nat → Option (List Nat × List Nat)) (b0 : Nat) (rest : List Nat) :
    Option (List Nat × List Nat) :=
  if b0 < 0x20 then none
  else if b0 < 0x80 then prependStr [b0] (k rest)
  else if b0 < 0xC2 then prependStr fffdBytes (k rest)
  else if b0 < 0xE0 then
    match rest with
    | b1 :: r1 =>
      if isCont b1 then
        prependStr (utf8EncodeChar ((b0 - 0xC0) * 64 + (b1 - 0x80))) (k r1)
      else prependStr fffdBytes (k rest)
    | [] => none
  else if b0 < 0xF0 then
    match rest with
    | b1 :: b2 :: r2 =>
      if threeOk b0 b1 b2 then
        prependStr (utf8EncodeChar (((b0 - 0xE0) * 64 + (b1 - 0x80)) * 64 + (b2 - 0x80)))
          (k r2)
      else prependStr fffdBytes (k rest)
    | _ => prependStr fffdBytes (k rest)
  else if b0 < 0xF5 then
    match rest with
    | b1 :: b2 :: b3 :: r3 =>
      if fourOk b0 b1 b2 b3 then
        prependStr
          (utf8EncodeChar
            ((((b0 - 0xF0) * 64 + (b1 - 0x80)) * 64 + (b2 - 0x80)) * 64 + (b3 - 0x80)))
          (k r3)
      else prependStr fffdBytes (k rest)
    | _ => prependStr fffdBytes (k rest)
  else prependStr fffdBytes (k rest)

def parseChar (k : List Nat → Option (List Nat × List Nat)) (b0 : Nat) (rest : List Nat) :
    Option (List Nat × List Nat) :=
  if b0 = 34 then some ([], rest)
  else if b0 = 92 then parseEscape k rest
  else parseRawChar k b0 rest

def parseStringBodyF : Nat → List Nat → Option (List Nat × List Nat)
  | 0, _ => none
  | _, [] => none
  | fuel + 1, b0 :: rest => parseChar (parseStringBodyF fuel) b0 rest

/-- The unquoter at its canonical fuel. -/
def parseStringBody (l : List Nat) : Option (List Nat × List Nat) :=
  parseStringBodyF (l.length + 1) l

/-- A quoted JSON string: opening quote then `parseStringBody`. -/
def parseString (l : List Nat) : Option (List Nat × List Nat) :=
  match l with
  | 34 :: r => parseStringBody r
  | _ => none

def isDigit (b : Nat) : Bool := 48 ≤ b && b ≤ 57

/-- Strip a (possibly empty) run of decimal digits. -/
def skipDigits : List Nat → List Nat
  | [] => []
  | b :: r => if isDigit b then skipDigits r else b :: r

/-- At least one digit, then any further digits. -/
def digits1 : List Nat → Option (List Nat)
  | [] => none
  | b :: r => if isDigit b then some (skipDigits r) else none

/-- Optional fraction part of a JSON number. -/
def parseFrac : List Nat → Option (List Nat)
  | 46 :: r => digits1 r
  | l => some l

/-- Optional exponent part of a JSON number. -/
def parseExp : List Nat → Option (List Nat)
  | 101 :: 43 :: r => digits1 r
  | 101 :: 45 :: r => digits1 r
  | 101 :: r => digits1 r
  | 69 :: 43 :: r => digits1 r
  | 69 :: 45 :: r => digits1 r
  | 69 :: r => digits1 r
  | l => some l

/-- A JSON number after its optional minus sign: `0` or a non-zero-led
digit run, then fraction and exponent. -/
def skipNumberAfterSign : List Nat → Option (List Nat)
  | [] => none
  | b :: r =>
    if b = 48 then parseFrac r >>= parseExp
    else if isDigit b then parseFrac (skipDigits r) >>= parseExp
    else none

mutual

/-- Skip one JSON value (scanner-level validity only), fuelled by an upper
bound on the remaining input length. -/
def skipValue : Nat → List Nat → Option (List Nat)
  | 0, _ => none
  | fuel + 1, l =>
    match skipWs l with
    | [] => none
    | 34 :: r => (parseStringBody r).map (·.2)
    | 123 :: r => skipMembers fuel (skipWs r) true
    | 91 :: r => skipElements fuel (skipWs r) true
    | 116 :: 114 :: 117 :: 101 :: r => some r
    | 102 :: 97 :: 108 :: 115 :: 101 :: r => some r
    | 110 :: 117 :: 108 :: 108 :: r => some r
    | 45 :: r => skipNumberAfterSign r
    | b :: r => if isDigit b then skipNumberAfterSign (b :: r) else none

/-- Skip the members of an object after the opening brace. -/
def skipMembers : Nat → List Nat → Bool → Option (List Nat)
  | 0, _, _ => none
  | fuel + 1, l, first =>
    match l with
    | 125 :: r => if first then some r else none
    | _ =>
      match parseString l with
      | none => none
      | some (_, r1) =>
        match skipWs r1 with
        | 58 :: r2 =>
          (match skipValue fuel (skipWs r2) with
           | none => none
           | some r3 =>
             match skipWs r3 with
             | 44 :: r4 => skipMembers fuel (skipWs r4) false
             | 125 :: r4 => some r4
             | _ => none)
        | _ => none

/-- Skip the elements of an array after the opening bracket. -/
def skipElements : Nat → List Nat → Bool → Option (List Nat)
  | 0, _, _ => none
  | fuel + 1, l, first =>
    match l with
    | 93 :: r => if first then some r else none
    | _ =>
      match skipValue fuel l with
      | none => none
      | some r1 =>
        match skipWs r1 with
        | 44 :: r2 => skipElements fuel (skipWs r2) false
        | 93 :: r2 => some r2
        | _ => none

end

/-- ASCII lower-casing, for `encoding/json`'s case-insensitive field-name
fallback. -/
def asciiFold (b : Nat) : Nat := if 65 ≤ b ∧ b ≤ 90 then b + 32 else b

/-- Field-name match: exact, or case-insensitive fallback. -/
def keyMatch (k f : List Nat) : Bool :=
  k = f || k.map asciiFold = f.map asciiFold

/-- Decode one member value into a string field (`ServiceMethod` /
`Error`): a JSON string assigns the unquoted bytes; `null` leaves the
field untouched; any other value is skipped and flags a type error, as
`encoding/json` saves an `UnmarshalTypeError` and continues. -/
def parseStringField (fuel : Nat) (l : List Nat) (st : RPCMessage × Bool)
    (upd : RPCMessage → List Nat → RPCMessage) :
    Option ((RPCMessage × Bool) × List Nat) :=
  match l with
  | 34 :: r => (parseStringBody r).map fun pr => ((upd st.1 pr.1, st.2), pr.2)
  | 110 :: 117 :: 108 :: 108 :: r => some (st, r)
  | _ => (skipValue fuel l).map fun r => ((st.1, false), r)

/-- Decode one member value into the `[]byte` payload field: a JSON
string is base64-decoded (decode failure flags the error and leaves the
field untouched); `null` leaves it untouched; other values are skipped
with a type error.  (Go can additionally decode a JSON array of numbers
into a `[]byte`; no theorem below depends on that shape and it is not
modelled.) -/
def parseBytesField (fuel : Nat) (l : List Nat) (st : RPCMessage × Bool) :
    Option ((RPCMessage × Bool) × List Nat) :=
  match l with
  | 34 :: r =>
    (parseStringBody r).map fun pr =>
      match base64Decode pr.1 with
      | some bs => (({ st.1 with Payload := bs }, st.2), pr.2)
      | none => ((st.1, false), pr.2)
  | 110 :: 117 :: 108 :: 108 :: r => some (st, r)
  | _ => (skipValue fuel l).map fun r => ((st.1, false), r)

/-- Dispatch one object member onto the three struct fields (unknown keys
are skipped without error). -/
def parseMemberValue (fuel : Nat) (l : List Nat) (key : List Nat)
    (st : RPCMessage × Bool) : Option ((RPCMessage × Bool) × List Nat) :=
  if keyMatch key (asciiBytes "ServiceMethod") then
    parseStringField fuel l st fun m v => { m with ServiceMethod := v }
  else if keyMatch key (asciiBytes "Error") then
    parseStringField fuel l st fun m v => { m with Error := v }
  else if keyMatch key (asciiBytes "Payload") then
    parseBytesField fuel l st
  else (skipValue fuel l).map fun r => (st, r)

/-- The member loop of `encoding/json`'s object decoding for the
`RPCMessage` struct; returns the final assignment state and the bytes
after the closing brace. -/
def parseMembers : Nat → List Nat → Bool → (RPCMessage × Bool) →
    Option ((RPCMessage × Bool) × List Nat)
  | 0, _, _, _ => none
  | fuel + 1, l, first, st =>
    match l with
    | 125 :: r => if first then some (st, r) else none
    | _ =>
      match parseString l with
      | none => none
      | some (key, r1) =>
        match skipWs r1 with
        | 58 :: r2 =>
          (match parseMemberValue fuel (skipWs r2) key st with
           | none => none
           | some (st', r3) =>
             match skipWs r3 with
             | 44 :: r4 => parseMembers fuel (skipWs r4) false st'
             | 125 :: r4 => some (st', r4)
             | _ => none)
        | _ => none

/-- Byte-level model of `json.Unmarshal(data, &msg)` for a zero-valued
`RPCMessage` target.  The boolean is `true` iff Go returns a nil error;
on a syntax error (including trailing data) Go validates before
assigning, so the message stays zero; on type errors the other fields
are still filled. -/
def Unmarshal (data : List Nat) : RPCMessage × Bool :=
  match
    (match skipWs data with
     | 123 :: r =>
       (match parseMembers (data.length + 1) (skipWs r) true (RPCMessage.zero, true) with
        | none => none
        | some (st, rest) => if skipWs rest = [] then some st else none)
     | _ => none)
  with
  | some st => st
  | none => (RPCMessage.zero, false)

end GoJson

namespace JSONCodec

/-- `JSONCodec.Encode` (codec/codec.go): delegates to `json.Marshal`. -/
def Encode (m : RPCMessage) : List Nat := GoJson.Marshal m

/-- `JSONCodec.Decode` (codec/codec.go): delegates to `json.Unmarshal`;
the boolean is the nil-ness of the returned error, the message the state
of the target after the call. -/
def Decode (data : List Nat) : RPCMessage × Bool := GoJson.Unmarshal data

end JSONCodec

/-- `codec.GetCodec` followed by `Codec.Decode` with the error result
discarded, on a fresh zero message — exactly how both
`transport.recvLoop` (client_transport.go line 119-121) and
`server.handleRequest` (server.go line 151-153) decode a frame body.
`GetCodec` returns the JSON codec iff the codec byte is 0, the binary
codec otherwise; a binary-codec panic is `none`. -/
def codecDecodeInto (ct : Nat) (body : List Nat) : Option RPCMessage :=
  if ct = 0 then some (GoJson.Unmarshal body).1 else BinaryCodec.Decode body

/-- `codec.GetCodec` followed by `Codec.Encode`: JSON marshal of an
`RPCMessage` cannot fail, nor can the binary encoder, so this is total
(the Go error branches after `c.Encode` are dead for this argument
type). -/
def codecEncode (ct : Nat) (m : RPCMessage) : List Nat :=
  if ct = 0 then GoJson.Marshal m else BinaryCodec.Encode m

/-! ## Client transport (transport/client_transport.go)

The pending `sync.Map` is an association list from `seq` (uint32) to the
identity of the response channel (a fresh `Nat` per `Send`, allocated by
a counter carried in the state).  `sync.Map.Store` replaces an existing
entry or appends; `Delete` removes; `LoadAndDelete` looks up and
removes. -/

/-- `sync.Map.Load`: first entry with the given key. -/
def lookupAssoc (l : List (Nat × Nat)) (k : Nat) : Option Nat :=
  (l.find? fun p => p.1 == k).map (·.2)

/-- `sync.Map.Store`: replace the entry with key `k`, or append one. -/
def storeAssoc (l : List (Nat × Nat)) (k v : Nat) : List (Nat × Nat) :=
  if (lookupAssoc l k).isSome then l.map fun p => if p.1 == k then (k, v) else p
  else l ++ [(k, v)]

/-- `sync.Map.Delete`. -/
def eraseAssoc (l : List (Nat × Nat)) (k : Nat) : List (Nat × Nat) :=
  l.filter fun p => p.1 != k

/-- Keys are pairwise distinct (always true of a map; an invariant our
association-list model of `sync.Map` preserves). -/
def NodupKeys (l : List (Nat × Nat)) : Prop := (l.map Prod.fst).Nodup

/-- `transport.ClientTransport`: the mutable state relevant to `Send` and
`recvLoop` — the codec chosen at construction, the `uint32` seq counter
and the pending table.  `nextSlot` is the model's allocator for fresh
response-channel identities. -/
structure ClientTransport where
  codec : Nat
  seq : Nat
  pending : List (Nat × Nat)
  nextSlot : Nat
deriving DecidableEq

/-- The observable steps `Send` performs, in order, while holding the
`sending` mutex. -/
inductive SendEvent where
  | seqAssign (s : Nat)
  | pendingStore (s slot : Nat)
  | frameWrite (bytes : List Nat)
  | pendingDelete (s : Nat)
deriving DecidableEq

/-- Event-kind projections used to state the ordering properties. -/
def SendEvent.isStore : SendEvent → Bool
  | .pendingStore _ _ => true
  | _ => false

def SendEvent.isWrite : SendEvent → Bool
  | .frameWrite _ => true
  | _ => false

def SendEvent.isDelete : SendEvent → Bool
  | .pendingDelete _ => true
  | _ => false

namespace ClientTransport

/-- `ClientTransport.Send` (client_transport.go lines 53-99), run under
the `sending` mutex.  `argsPayload` is the result of
`json.Marshal(args)` (`none` = marshal error, which returns before any
pending-table effect but after the seq increment); `writeOk` says
whether `protocol.Encode`'s connection write succeeds.  The
`cdc.Encode` error branch is dead: neither codec can fail on an
`RPCMessage`.  Returns the new state, the result (`some (seq, slot)` or
`none` for an error return), and the ordered event trace. -/
def Send (t : ClientTransport) (serviceMethod : List Nat)
    (argsPayload : Option (List Nat)) (writeOk : Bool) :
    ClientTransport × Option (Nat × Nat) × List SendEvent :=
  let seq := (t.seq + 1) % 2 ^ 32
  let t1 : ClientTransport := { t with seq := seq }
  match argsPayload with
  | none => (t1, none, [.seqAssign seq])
  | some payload =>
    let body := codecEncode t.codec ⟨serviceMethod, [], payload⟩
    let header : Header := ⟨t.codec, 0, seq, body.length % 2 ^ 32⟩
    let frame := Protocol.Encode header body
    let slot := t.nextSlot
    let t2 : ClientTransport :=
      { t1 with pending := storeAssoc t1.pending seq slot, nextSlot := t.nextSlot + 1 }
    if writeOk then
      (t2, some (seq, slot), [.seqAssign seq, .pendingStore seq slot, .frameWrite frame])
    else
      ({ t2 with pending := eraseAssoc t2.pending seq }, none,
        [.seqAssign seq, .pendingStore seq slot, .frameWrite frame, .pendingDelete seq])

/-- The envelope `closeAllPending` delivers:
`&message.RPCMessage{Error: err.Error()}`. -/
def syntheticEnvelope (emsg : List Nat) : RPCMessage := ⟨[], emsg, []⟩

/-- `ClientTransport.recvLoop` (client_transport.go lines 108-128) plus
`closeAllPending` (lines 132-139), over the byte stream the connection
will deliver.  Returns the list of `(slot, envelope)` deliveries in
order and the final pending table, or `none` if the loop panics (the
binary codec's decode on a malformed body).  On a frame decode error it
delivers one synthetic envelope per remaining pending entry, clears the
table, and exits.  A decoded frame is delivered to the channel
`LoadAndDelete` finds for its seq; otherwise it is dropped.  Fuel: each
iteration consumes at least 14 bytes, so `length + 1` suffices. -/
def recvLoop : Nat → List Nat → List (Nat × Nat) →
    Option (List (Nat × RPCMessage) × List (Nat × Nat))
  | 0, _, _ => none
  | fuel + 1, stream, pending =>
    match Protocol.Decode stream with
    | .error e => some (pending.map fun p => (p.2, syntheticEnvelope e.msg), [])
    | .ok (header, body, rest) =>
      match codecDecodeInto header.CodecType body with
      | none => none
      | some msg =>
        match lookupAssoc pending header.Seq with
        | some slot =>
          match recvLoop fuel rest (eraseAssoc pending header.Seq) with
          | none => none
          | some (ds, fin) => some ((slot, msg) :: ds, fin)
        | none => recvLoop fuel rest pending

/-- `recvLoop` on a complete connection byte stream. -/
def recvLoopRun (stream : List Nat) (pending : List (Nat × Nat)) :
    Option (List (Nat × RPCMessage) × List (Nat × Nat)) :=
  recvLoop (stream.length + 1) stream pending

/-- The streams on whose frames the codec-level decode does not panic:
every successfully frame-decoded body is accepted by its codec (for the
JSON codec that is every body since its error is discarded; for the
binary codec the body must be well-formed). -/
def streamOk : Nat → List Nat → Bool
  | 0, _ => false
  | fuel + 1, stream =>
    match Protocol.Decode stream with
    | .error _ => true
    | .ok (h, b, rest) => (codecDecodeInto h.CodecType b).isSome && streamOk fuel rest

def streamOkRun (stream : List Nat) : Bool := streamOk (stream.length + 1) stream

/-- Number of deliveries made to one slot. -/
def countDeliveries (ds : List (Nat × RPCMessage)) (slot : Nat) : Nat :=
  (ds.filter fun d => d.1 == slot).length

end ClientTransport

/-! ## Server (server/server.go, server/service.go)

`businessHandler` looks services and methods up in `serviceMap`; what the
reflection machinery does with a found method — `reflect.New(ArgType)`
plus `json.Unmarshal` of the payload, `svc.Call`, `json.Marshal` of the
reply — is abstracted as three fields of `MethodEntry`, with Go values
represented opaquely as byte strings.  The dispatch logic itself,
including the absence of any nil check after the two map lookups, is
transcribed from the source. -/

/-- `strings.Split(s, ".")` (byte 46), accumulator form. -/
def splitDotAux : List Nat → List Nat → List (List Nat)
  | [], acc => [acc.reverse]
  | 46 :: rest, acc => acc.reverse :: splitDotAux rest []
  | b :: rest, acc => splitDotAux rest (b :: acc)

def splitDot (s : List Nat) : List (List Nat) := splitDotAux s []

/-- One `*methodType` together with the reflection steps
`businessHandler` performs on it: `argUnmarshal` is
`json.Unmarshal(req.Payload, argv.Interface())` (error message or decoded
argument), `callFn` is `svc.Call` (reply value and optional error
message), `marshalReply` is `json.Marshal(replyv.Interface())` (`none` =
marshal error, which Go only logs, leaving the reply bytes nil). -/
structure MethodEntry where
  argUnmarshal : List Nat → Except (List Nat) (List Nat)
  callFn : List Nat → List Nat × Option (List Nat)
  marshalReply : List Nat → Option (List Nat)

/-- A `*service`: its method map. -/
structure ServiceEntry where
  methods : List (List Nat × MethodEntry)

namespace Server

/-- Map lookup, Go-style: a missing key yields the zero value — here
`none` standing for a nil pointer. -/
def mapLookup {α : Type} (l : List (List Nat × α)) (k : List Nat) : Option α :=
  (l.find? fun p => p.1 == k).map (·.2)

/-- `Server.businessHandler` (server/server.go lines 221-262).  `none` is
a panic: on an unknown service, `svr.serviceMap[serviceName]` is nil and
`svc.method[methodName]` dereferences it; on an unknown method,
`svc.method[methodName]` is nil and `method.ArgType` dereferences it. -/
def businessHandler (serviceMap : List (List Nat × ServiceEntry)) (req : RPCMessage) :
    Option RPCMessage :=
  let split := splitDot req.ServiceMethod
  if split.length ≠ 2 then some ⟨[], asciiBytes "invalid service method format", []⟩
  else
    let serviceName := split.getD 0 []
    let methodName := split.getD 1 []
    match mapLookup serviceMap serviceName with
    | none => none
    | some svc =>
      match mapLookup svc.methods methodName with
      | none => none
      | some meth =>
        match meth.argUnmarshal req.Payload with
        | .error e => some ⟨[], e, []⟩
        | .ok argv =>
          let (replyv, methodErr) := meth.callFn argv
          let replyMessage := (meth.marshalReply replyv).getD []
          some ⟨req.ServiceMethod, methodErr.getD [], replyMessage⟩

/-- `Server.handleRequest` (server/server.go lines 145-180): decode the
body with the request's codec (the `c.Decode` error is discarded), run
the handler chain, encode with the same codec, and write one response
frame under the per-connection write lock.  The value is the frame
`protocol.Encode` writes — header and body — or `none` if the codec
decode or the handler panics (no frame is written; the dead `c.Encode`
error branch would likewise return without writing). -/
def handleRequest (handler : RPCMessage → Option RPCMessage) (header : Header)
    (body : List Nat) : Option (Header × List Nat) :=
  match codecDecodeInto header.CodecType body with
  | none => none
  | some msg =>
    match handler msg with
    | none => none
    | some rpcMessage =>
      let result := codecEncode header.CodecType rpcMessage
      some (⟨header.CodecType, 1, header.Seq, result.length % 2 ^ 32⟩, result)

end Server

/-! ## Retry middleware (middleware retry source file) -/

/-- Two's-complement wrap of an integer into `int64`. -/
def wrap64 (x : Int) : Int := (x + 2 ^ 63) % 2 ^ 64 - 2 ^ 63

/-- Go's `1 << i` on `int` (64-bit): zero once the shift reaches the
width, `-2^63` at 63. -/
def goShl1 (i : Nat) : Int := if i < 64 then wrap64 (2 ^ i) else 0

/-- `int64` multiplication (as in `baseDelay * time.Duration(1<<i)`). -/
def durMul (a b : Int) : Int := wrap64 (a * b)

/-- `strings.Contains(hay, needle)`: some suffix of `hay` starts with
`needle`. -/
def listContains (needle : List Nat) : List Nat → Bool
  | [] => needle.isEmpty
  | l@(_ :: t) => needle.isPrefixOf l || listContains needle t

/-- The retry condition: `strings.Contains(err, "timeout") ||
strings.Contains(err, "connection refused")`. -/
def retryable (e : List Nat) : Bool :=
  listContains (asciiBytes "timeout") e || listContains (asciiBytes "connection refused") e

namespace RetryMiddleware

/-- The `for i := 0; i < maxRetries; i++` loop of `RetryMiddleware`:
`msg` is the result of invocation number `i` of `next`, `rem` the
remaining iterations.  Also records the argument of each `time.Sleep`
(`baseDelay * time.Duration(1<<i)`, in wrapped `int64` arithmetic). -/
def loop (next : Nat → RPCMessage) (baseDelay : Int) :
    RPCMessage → Nat → Nat → RPCMessage × List Int
  | msg, _, 0 => (msg, [])
  | msg, i, rem + 1 =>
    if msg.Error = [] then (msg, [])
    else if retryable msg.Error then
      let d := durMul baseDelay (goShl1 i)
      let (res, ds) := loop next baseDelay (next (i + 1)) (i + 1) rem
      (res, d :: ds)
    else (msg, [])

/-- The handler `RetryMiddleware(maxRetries, baseDelay)` wraps around
`next`: invoke `next` once, then loop.  `next k` is the envelope the
downstream handler returns on its `k`-th invocation. -/
def run (next : Nat → RPCMessage) (maxRetries : Nat) (baseDelay : Int) :
    RPCMessage × List Int :=
  loop next baseDelay (next 0) 0 maxRetries

end RetryMiddleware

/-! ## Lemmas: the JSON codec (`encoding/json` model) -/

namespace GoJson

theorem prependStr_some (bs a b : List Nat) :
    prependStr bs (some (a, b)) = some (bs ++ a, b) := rfl

theorem prependStr_none (bs : List Nat) : prependStr bs none = none := rfl

theorem hexVal_digit (n : Nat) (h : n < 16) : hexVal (jHexDigit n) = some n := by
  unfold jHexDigit hexVal
  by_cases hn : n < 10
  · rw [if_pos hn, if_pos (by omega)]
    congr 1
    omega
  · rw [if_neg hn, if_neg (by omega), if_pos (by omega)]
    congr 1
    omega

theorem hex4_00 (b : Nat) (hb : b < 256) :
    hex4 48 48 (jHexDigit (b / 16)) (jHexDigit (b % 16)) = some b := by
  unfold hex4
  rw [show hexVal 48 = some 0 from rfl, hexVal_digit (b / 16) (by omega),
    hexVal_digit (b % 16) (by omega)]
  exact congrArg some (by omega)

theorem parseChar_quote (k : List Nat → Option (List Nat × List Nat)) (rest : List Nat) :
    parseChar k 34 rest = some ([], rest) := rfl

theorem parseRawChar_plain (k : List Nat → Option (List Nat × List Nat)) (b0 : Nat)
    (rest : List Nat) (h32 : 0x20 ≤ b0) (h80 : b0 < 0x80) :
    parseRawChar k b0 rest = prependStr [b0] (k rest) := by
  unfold parseRawChar
  rw [if_neg (by omega), if_pos h80]

theorem parseRawChar_two (k : List Nat → Option (List Nat × List Nat)) (b0 b1 : Nat)
    (r1 : List Nat) (hlo : 0xC2 ≤ b0) (hhi : b0 < 0xE0) (hcont : isCont b1 = true) :
    parseRawChar k b0 (b1 :: r1)
      = prependStr (utf8EncodeChar ((b0 - 0xC0) * 64 + (b1 - 0x80))) (k r1) := by
  unfold parseRawChar
  rw [if_neg (by omega), if_neg (by omega), if_neg (by omega), if_pos (by omega)]
  simp only [hcont, if_true]

theorem parseRawChar_three (k : List Nat → Option (List Nat × List Nat)) (b0 b1 b2 : Nat)
    (r2 : List Nat) (hlo : 0xE0 ≤ b0) (hhi : b0 < 0xF0) (hok : threeOk b0 b1 b2 = true) :
    parseRawChar k b0 (b1 :: b2 :: r2)
      = prependStr (utf8EncodeChar (((b0 - 0xE0) * 64 + (b1 - 0x80)) * 64 + (b2 - 0x80)))
          (k r2) := by
  unfold parseRawChar
  rw [if_neg (by omega), if_neg (by omega), if_neg (by omega), if_neg (by omega),
    if_pos (by omega)]
  simp only [hok, if_true]

theorem parseRawChar_four (k : List Nat → Option (List Nat × List Nat)) (b0 b1 b2 b3 : Nat)
    (r3 : List Nat) (hlo : 0xF0 ≤ b0) (hhi : b0 < 0xF5) (hok : fourOk b0 b1 b2 b3 = true) :
    parseRawChar k b0 (b1 :: b2 :: b3 :: r3)
      = prependStr
          (utf8EncodeChar ((((b0 - 0xF0) * 64 + (b1 - 0x80)) * 64 + (b2 - 0x80)) * 64 + (b3 - 0x80)))
          (k r3) := by
  unfold parseRawChar
  rw [if_neg (by omega), if_neg (by omega), if_neg (by omega), if_neg (by omega),
    if_neg (by omega), if_pos (by omega)]
  simp only [hok, if_true]

theorem parseChar_raw (k : List Nat → Option (List Nat × List Nat)) (b0 : Nat)
    (rest : List Nat) (h34 : b0 ≠ 34) (h92 : b0 ≠ 92) :
    parseChar k b0 rest = parseRawChar k b0 rest := by
  unfold parseChar
  rw [if_neg h34, if_neg h92]

theorem parseEscape_u (k : List Nat → Option (List Nat × List Nat))
    (h1 h2 h3 h4 v : Nat) (rr : List Nat)
    (hx : hex4 h1 h2 h3 h4 = some v) (hv : v < 0xD800 ∨ 0xE000 ≤ v) :
    parseEscape k (117 :: h1 :: h2 :: h3 :: h4 :: rr)
      = prependStr (utf8EncodeChar v) (k rr) := by
  simp only [parseEscape, if_true, if_false]
  simp only [parseUEscape]
  simp only [hx, if_pos hv]
  norm_num

end GoJson

theorem isCont_true (b : Nat) (h1 : 0x80 ≤ b) (h2 : b < 0xC0) : isCont b = true := by
  unfold isCont
  simp only [Bool.and_eq_true, decide_eq_true_eq]
  exact ⟨h1, h2⟩

theorem threeOk_enc (c : Nat) (h1 : 0x800 ≤ c) (h2 : c < 0x10000)
    (h3 : c < 0xD800 ∨ 0xE000 ≤ c) :
    threeOk (0xE0 + c / 4096) (0x80 + c / 64 % 64) (0x80 + c % 64) = true := by
  unfold threeOk isCont
  by_cases hE0 : 0xE0 + c / 4096 = 0xE0
  · rw [if_pos hE0]
    simp only [Bool.and_eq_true, decide_eq_true_eq]
    omega
  · rw [if_neg hE0]
    by_cases hED : 0xE0 + c / 4096 = 0xED
    · rw [if_pos hED]
      simp only [Bool.and_eq_true, decide_eq_true_eq]
      omega
    · rw [if_neg hED]
      simp only [Bool.and_eq_true, decide_eq_true_eq]
      omega

theorem fourOk_enc (c : Nat) (h1 : 0x10000 ≤ c) (h2 : c < 0x110000) :
    fourOk (0xF0 + c / 262144) (0x80 + c / 4096 % 64) (0x80 + c / 64 % 64) (0x80 + c % 64)
      = true := by
  unfold fourOk isCont
  by_cases hF0 : 0xF0 + c / 262144 = 0xF0
  · rw [if_pos hF0]
    simp only [Bool.and_eq_true, decide_eq_true_eq]
    omega
  · rw [if_neg hF0]
    by_cases hF4 : 0xF0 + c / 262144 = 0xF4
    · rw [if_pos hF4]
      simp only [Bool.and_eq_true, decide_eq_true_eq]
      omega
    · rw [if_neg hF4]
      simp only [Bool.and_eq_true, decide_eq_true_eq]
      omega

namespace GoJson

theorem threeChunk_enc (c : Nat) (h1 : 0x800 ≤ c) (h2 : c < 0x10000)
    (hn1 : c ≠ 0x2028) (hn2 : c ≠ 0x2029) :
    threeChunk (0xE0 + c / 4096) (0x80 + c / 64 % 64) (0x80 + c % 64)
      = [0xE0 + c / 4096, 0x80 + c / 64 % 64, 0x80 + c % 64] := by
  simp only [threeChunk]
  rw [show ((0xE0 + c / 4096 - 0xE0) * 64 + (0x80 + c / 64 % 64 - 0x80)) * 64
      + (0x80 + c % 64 - 0x80) = c from by omega]
  rw [if_neg hn1, if_neg hn2]

theorem escChar_ascii (k : List Nat → List Nat) (b0 : Nat) (rest : List Nat)
    (h80 : b0 < 0x80) : escChar k b0 rest = asciiChunk b0 ++ k rest := by
  unfold escChar
  rw [if_pos h80]

theorem escChar_two (k : List Nat → List Nat) (b0 b1 : Nat) (r1 : List Nat)
    (hlo : 0xC2 ≤ b0) (hhi : b0 < 0xE0) (hcont : isCont b1 = true) :
    escChar k b0 (b1 :: r1) = b0 :: b1 :: k r1 := by
  unfold escChar
  rw [if_neg (by omega), if_neg (by omega), if_pos (by omega)]
  simp only [hcont, if_true]

theorem escChar_three (k : List Nat → List Nat) (b0 b1 b2 : Nat) (r2 : List Nat)
    (hlo : 0xE0 ≤ b0) (hhi : b0 < 0xF0) (hok : threeOk b0 b1 b2 = true) :
    escChar k b0 (b1 :: b2 :: r2) = threeChunk b0 b1 b2 ++ k r2 := by
  unfold escChar
  rw [if_neg (by omega), if_neg (by omega), if_neg (by omega), if_pos (by omega)]
  simp only [hok, if_true]

theorem escChar_four (k : List Nat → List Nat) (b0 b1 b2 b3 : Nat) (r3 : List Nat)
    (hlo : 0xF0 ≤ b0) (hhi : b0 < 0xF5) (hok : fourOk b0 b1 b2 b3 = true) :
    escChar k b0 (b1 :: b2 :: b3 :: r3) = b0 :: b1 :: b2 :: b3 :: k r3 := by
  unfold escChar
  rw [if_neg (by omega), if_neg (by omega), if_neg (by omega), if_neg (by omega),
    if_pos (by omega)]
  simp only [hok, if_true]

theorem parseEscape_quote (k : List Nat → Option (List Nat × List Nat)) (r : List Nat) :
    parseEscape k (34 :: r) = prependStr [34] (k r) := rfl

theorem parseEscape_backslash (k : List Nat → Option (List Nat × List Nat)) (r : List Nat) :
    parseEscape k (92 :: r) = prependStr [92] (k r) := rfl

theorem parseEscape_n (k : List Nat → Option (List Nat × List Nat)) (r : List Nat) :
    parseEscape k (110 :: r) = prependStr [10] (k r) := rfl

theorem parseEscape_r (k : List Nat → Option (List Nat × List Nat)) (r : List Nat) :
    parseEscape k (114 :: r) = prependStr [13] (k r) := rfl

theorem parseEscape_t (k : List Nat → Option (List Nat × List Nat)) (r : List Nat) :
    parseEscape k (116 :: r) = prependStr [9] (k r) := rfl

end GoJson

namespace GoJson

theorem parseChar_escape (k : List Nat → Option (List Nat × List Nat)) (rest : List Nat) :
    parseChar k 92 rest = parseEscape k rest := by
  unfold parseChar
  norm_num

/-- What the escaper does to one encoded scalar value at the head of the
input: it emits the rune's chunk and moves on. -/
theorem jsonEscapeF_chunk (c : Nat) (t : List Nat) (f : Nat)
    (hc : c < 0xD800 ∨ (0xE000 ≤ c ∧ c < 0x110000)) :
    jsonEscapeF (f + 1) (utf8EncodeChar c ++ t) = runeChunk c ++ jsonEscapeF f t := by
  by_cases h80 : c < 0x80
  · have he : utf8EncodeChar c = [c] := by
      unfold utf8EncodeChar
      rw [if_pos h80]
    rw [he, List.singleton_append, jsonEscapeF.eq_3, escChar_ascii _ _ _ h80,
      show runeChunk c = asciiChunk c from if_pos h80]
  · by_cases h800 : c < 0x800
    · have he : utf8EncodeChar c = [0xC0 + c / 64, 0x80 + c % 64] := by
        unfold utf8EncodeChar
        rw [if_neg (by omega), if_pos (by omega)]
      have hrc : runeChunk c = [0xC0 + c / 64, 0x80 + c % 64] := by
        unfold runeChunk
        rw [if_neg (by omega), if_neg (by omega), if_neg (by omega)]
        exact he
      rw [he, hrc]
      simp only [List.cons_append, List.nil_append]
      rw [jsonEscapeF.eq_3,
        escChar_two _ _ _ _ (by omega) (by omega) (isCont_true _ (by omega) (by omega))]
    · by_cases h10000 : c < 0x10000
      · by_cases h2028 : c = 0x2028
        · subst h2028
          rw [show utf8EncodeChar 0x2028 = [0xE2, 0x80, 0xA8] from rfl]
          simp only [List.cons_append, List.nil_append]
          rw [jsonEscapeF.eq_3,
            escChar_three _ _ _ _ _ (by norm_num) (by norm_num) (by decide),
            show threeChunk 0xE2 0x80 0xA8 = u2028Esc from rfl,
            show runeChunk 0x2028 = u2028Esc from rfl]
        · by_cases h2029 : c = 0x2029
          · subst h2029
            rw [show utf8EncodeChar 0x2029 = [0xE2, 0x80, 0xA9] from rfl]
            simp only [List.cons_append, List.nil_append]
            rw [jsonEscapeF.eq_3,
              escChar_three _ _ _ _ _ (by norm_num) (by norm_num) (by decide),
              show threeChunk 0xE2 0x80 0xA9 = u2029Esc from rfl,
              show runeChunk 0x2029 = u2029Esc from rfl]
          · have hsur : c < 0xD800 ∨ 0xE000 ≤ c := by
              rcases hc with h | h
              · exact Or.inl h
              · exact Or.inr h.1
            have he : utf8EncodeChar c
                = [0xE0 + c / 4096, 0x80 + c / 64 % 64, 0x80 + c % 64] := by
              unfold utf8EncodeChar
              rw [if_neg (by omega), if_neg (by omega), if_pos (by omega)]
            have hrc : runeChunk c
                = [0xE0 + c / 4096, 0x80 + c / 64 % 64, 0x80 + c % 64] := by
              unfold runeChunk
              rw [if_neg (by omega), if_neg h2028, if_neg h2029]
              exact he
            rw [he, hrc]
            simp only [List.cons_append, List.nil_append]
            rw [jsonEscapeF.eq_3,
              escChar_three _ _ _ _ _ (by omega) (by omega)
                (threeOk_enc c (by omega) h10000 hsur),
              threeChunk_enc c (by omega) h10000 h2028 h2029]
            simp only [List.cons_append, List.nil_append]
      · have hc4 : c < 0x110000 := by
          rcases hc with h | h
          · omega
          · exact h.2
        have he : utf8EncodeChar c
            = [0xF0 + c / 262144, 0x80 + c / 4096 % 64, 0x80 + c / 64 % 64, 0x80 + c % 64] := by
          unfold utf8EncodeChar
          rw [if_neg (by omega), if_neg (by omega), if_neg (by omega)]
        have hrc : runeChunk c = utf8EncodeChar c := by
          unfold runeChunk
          rw [if_neg (by omega), if_neg (by omega), if_neg (by omega)]
        rw [hrc, he]
        simp only [List.cons_append, List.nil_append]
        rw [jsonEscapeF.eq_3,
          escChar_four _ _ _ _ _ _ (by omega) (by omega) (fourOk_enc c (by omega) hc4)]

/-- What the unquoter does to one rune chunk at the head of the input: it
prepends the rune's UTF-8 bytes and moves on. -/
theorem parseStringBodyF_chunk (c : Nat) (u : List Nat) (f : Nat)
    (hc : c < 0xD800 ∨ (0xE000 ≤ c ∧ c < 0x110000)) :
    parseStringBodyF (f + 1) (runeChunk c ++ u)
      = prependStr (utf8EncodeChar c) (parseStringBodyF f u) := by
  by_cases h80 : c < 0x80
  · have he : utf8EncodeChar c = [c] := by
      unfold utf8EncodeChar
      rw [if_pos h80]
    rw [show runeChunk c = asciiChunk c from if_pos h80]
    unfold asciiChunk
    by_cases hs : htmlSafe c
    · rw [if_pos hs]
      have hprops : 0x20 ≤ c ∧ c ≠ 34 ∧ c ≠ 92 := by
        unfold htmlSafe at hs
        simp only [Bool.and_eq_true, decide_eq_true_eq] at hs
        exact ⟨hs.1.1.1.1.1, hs.1.1.1.1.2, hs.1.1.1.2⟩
      rw [List.singleton_append, parseStringBodyF.eq_3,
        parseChar_raw _ _ _ hprops.2.1 hprops.2.2,
        parseRawChar_plain _ _ _ hprops.1 h80, he]
    · rw [if_neg hs]
      unfold escapeByte
      by_cases h92c : c = 92
      · subst h92c
        rw [if_pos rfl, show ([92, 92] : List Nat) ++ u = 92 :: 92 :: u from rfl,
          parseStringBodyF.eq_3, parseChar_escape, parseEscape_backslash]
        rfl
      · rw [if_neg h92c]
        by_cases h34c : c = 34
        · subst h34c
          rw [if_pos rfl, show ([92, 34] : List Nat) ++ u = 92 :: 34 :: u from rfl,
            parseStringBodyF.eq_3, parseChar_escape, parseEscape_quote]
          rfl
        · rw [if_neg h34c]
          by_cases h10c : c = 10
          · subst h10c
            rw [if_pos rfl, show ([92, 110] : List Nat) ++ u = 92 :: 110 :: u from rfl,
              parseStringBodyF.eq_3, parseChar_escape, parseEscape_n]
            rfl
          · rw [if_neg h10c]
            by_cases h13c : c = 13
            · subst h13c
              rw [if_pos rfl, show ([92, 114] : List Nat) ++ u = 92 :: 114 :: u from rfl,
                parseStringBodyF.eq_3, parseChar_escape, parseEscape_r]
              rfl
            · rw [if_neg h13c]
              by_cases h9c : c = 9
              · subst h9c
                rw [if_pos rfl, show ([92, 116] : List Nat) ++ u = 92 :: 116 :: u from rfl,
                  parseStringBodyF.eq_3, parseChar_escape, parseEscape_t]
                rfl
              · rw [if_neg h9c,
                  show ([92, 117, 48, 48, jHexDigit (c / 16), jHexDigit (c % 16)] : List Nat)
                      ++ u
                    = 92 :: 117 :: 48 :: 48 :: jHexDigit (c / 16) :: jHexDigit (c % 16) :: u
                    from rfl,
                  parseStringBodyF.eq_3, parseChar_escape,
                  parseEscape_u _ 48 48 (jHexDigit (c / 16)) (jHexDigit (c % 16)) c u
                    (hex4_00 c (by omega)) (Or.inl (by omega))]
  · have h3492 : 0xC2 ≤ 0xC0 + c / 64 → (0xC0 + c / 64 ≠ 34 ∧ 0xC0 + c / 64 ≠ 92) := by
      omega
    by_cases h800 : c < 0x800
    · have he : utf8EncodeChar c = [0xC0 + c / 64, 0x80 + c % 64] := by
        unfold utf8EncodeChar
        rw [if_neg (by omega), if_pos (by omega)]
      have hrc : runeChunk c = [0xC0 + c / 64, 0x80 + c % 64] := by
        unfold runeChunk
        rw [if_neg (by omega), if_neg (by omega), if_neg (by omega)]
        exact he
      rw [hrc]
      simp only [List.cons_append, List.nil_append]
      rw [parseStringBodyF.eq_3, parseChar_raw _ _ _ (by omega) (by omega),
        parseRawChar_two _ _ _ _ (by omega) (by omega) (isCont_true _ (by omega) (by omega)),
        show (0xC0 + c / 64 - 0xC0) * 64 + (0x80 + c % 64 - 0x80) = c from by omega]
    · by_cases h10000 : c < 0x10000
      · by_cases h2028 : c = 0x2028
        · subst h2028
          rw [show runeChunk 0x2028 = u2028Esc from rfl,
            show (u2028Esc : List Nat) ++ u = 92 :: 117 :: 50 :: 48 :: 50 :: 56 :: u from rfl,
            parseStringBodyF.eq_3, parseChar_escape,
            parseEscape_u _ 50 48 50 56 0x2028 u (by decide) (Or.inl (by norm_num))]
        · by_cases h2029 : c = 0x2029
          · subst h2029
            rw [show runeChunk 0x2029 = u2029Esc from rfl,
              show (u2029Esc : List Nat) ++ u = 92 :: 117 :: 50 :: 48 :: 50 :: 57 :: u from rfl,
              parseStringBodyF.eq_3, parseChar_escape,
              parseEscape_u _ 50 48 50 57 0x2029 u (by decide) (Or.inl (by norm_num))]
          · have hsur : c < 0xD800 ∨ 0xE000 ≤ c := by
              rcases hc with h | h
              · exact Or.inl h
              · exact Or.inr h.1
            have hrc : runeChunk c
                = [0xE0 + c / 4096, 0x80 + c / 64 % 64, 0x80 + c % 64] := by
              unfold runeChunk
              rw [if_neg (by omega), if_neg h2028, if_neg h2029]
              unfold utf8EncodeChar
              rw [if_neg (by omega), if_neg (by omega), if_pos (by omega)]
            rw [hrc]
            simp only [List.cons_append, List.nil_append]
            rw [parseStringBodyF.eq_3, parseChar_raw _ _ _ (by omega) (by omega),
              parseRawChar_three _ _ _ _ _ (by omega) (by omega)
                (threeOk_enc c (by omega) h10000 hsur),
              show ((0xE0 + c / 4096 - 0xE0) * 64 + (0x80 + c / 64 % 64 - 0x80)) * 64
                  + (0x80 + c % 64 - 0x80) = c from by omega]
      · have hc4 : c < 0x110000 := by
          rcases hc with h | h
          · omega
          · exact h.2
        have hrc : runeChunk c
            = [0xF0 + c / 262144, 0x80 + c / 4096 % 64, 0x80 + c / 64 % 64, 0x80 + c % 64] := by
          unfold runeChunk
          rw [if_neg (by omega), if_neg (by omega), if_neg (by omega)]
          unfold utf8EncodeChar
          rw [if_neg (by omega), if_neg (by omega), if_neg (by omega)]
        rw [hrc]
        simp only [List.cons_append, List.nil_append]
        rw [parseStringBodyF.eq_3, parseChar_raw _ _ _ (by omega) (by omega),
          parseRawChar_four _ _ _ _ _ _ (by omega) (by omega) (fourOk_enc c (by omega) hc4),
          show (((0xF0 + c / 262144 - 0xF0) * 64 + (0x80 + c / 4096 % 64 - 0x80)) * 64
                + (0x80 + c / 64 % 64 - 0x80)) * 64 + (0x80 + c % 64 - 0x80) = c from by omega]

end GoJson

theorem utf8EncodeChar_length_pos (c : Nat) : 1 ≤ (utf8EncodeChar c).length := by
  unfold utf8EncodeChar
  split_ifs <;> simp

namespace GoJson

/-- On valid UTF-8 the escaper's result does not depend on the fuel, as
long as the fuel exceeds the input length. -/
theorem jsonEscapeF_irrel (s : List Nat) (hs : Utf8Valid s) :
    ∀ f f', s.length < f → s.length < f' → jsonEscapeF f s = jsonEscapeF f' s := by
  induction hs with
  | nil =>
    intro f f' hf hf'
    cases f with
    | zero => omega
    | succ a =>
      cases f' with
      | zero => omega
      | succ b => rfl
  | app c rest hc hrest ih =>
    intro f f' hf hf'
    have hl := utf8EncodeChar_length_pos c
    rw [List.length_append] at hf hf'
    cases f with
    | zero => omega
    | succ a =>
      cases f' with
      | zero => omega
      | succ b =>
        rw [jsonEscapeF_chunk c rest a hc, jsonEscapeF_chunk c rest b hc,
          ih a b (by omega) (by omega)]

/-- The escaper on one scalar value followed by a valid tail. -/
theorem jsonEscape_chunk (c : Nat) (s : List Nat)
    (hc : c < 0xD800 ∨ (0xE000 ≤ c ∧ c < 0x110000)) (hs : Utf8Valid s) :
    jsonEscape (utf8EncodeChar c ++ s) = runeChunk c ++ jsonEscape s := by
  unfold jsonEscape
  rw [jsonEscapeF_chunk c s _ hc]
  have hl := utf8EncodeChar_length_pos c
  have hlen : (utf8EncodeChar c ++ s).length = (utf8EncodeChar c).length + s.length :=
    List.length_append _ _
  exact congrArg _ (jsonEscapeF_irrel s hs _ _ (by omega) (by omega))

theorem jsonEscape_nil : jsonEscape [] = [] := rfl

/-- Escaping never shortens a valid UTF-8 string. -/
theorem jsonEscape_length (s : List Nat) (hs : Utf8Valid s) :
    s.length ≤ (jsonEscape s).length := by
  induction hs with
  | nil => simp [jsonEscape_nil]
  | app c rest hc hrest ih =>
    rw [jsonEscape_chunk c rest hc hrest, List.length_append, List.length_append]
    have hchunk : (utf8EncodeChar c).length ≤ (runeChunk c).length := by
      unfold runeChunk
      by_cases h80 : c < 0x80
      · rw [if_pos h80, show utf8EncodeChar c = [c] from by
          unfold utf8EncodeChar
          rw [if_pos h80]]
        unfold asciiChunk escapeByte
        split_ifs <;> simp
      · rw [if_neg h80]
        split_ifs with h1 h2
        · subst h1
          decide
        · subst h2
          decide
        · exact Nat.le_refl _
    omega

/-- The unquoter inverts the escaper on any valid UTF-8 string. -/
theorem parseStringBodyF_escape (s u : List Nat) (hs : Utf8Valid s) :
    ∀ f, s.length < f → parseStringBodyF f (jsonEscape s ++ 34 :: u) = some (s, u) := by
  induction hs with
  | nil =>
    intro f hf
    cases f with
    | zero => omega
    | succ f' =>
      rw [jsonEscape_nil, List.nil_append, parseStringBodyF.eq_3, parseChar_quote]
  | app c rest hc hrest ih =>
    intro f hf
    have hl := utf8EncodeChar_length_pos c
    rw [List.length_append] at hf
    cases f with
    | zero => omega
    | succ f' =>
      rw [jsonEscape_chunk c rest hc hrest, List.append_assoc,
        parseStringBodyF_chunk c _ f' hc, ih f' (by omega), prependStr_some]

theorem parseStringBody_escape (s u : List Nat) (hs : Utf8Valid s) :
    parseStringBody (jsonEscape s ++ 34 :: u) = some (s, u) := by
  unfold parseStringBody
  refine parseStringBodyF_escape s u hs _ ?_
  rw [List.length_append]
  have := jsonEscape_length s hs
  simp only [List.length_cons]
  omega

/-- The unquoter on a string of plain bytes (printable ASCII other than
quote and backslash) followed by the closing quote. -/
theorem parseStringBodyF_plain (s u : List Nat)
    (h : ∀ b ∈ s, 0x20 ≤ b ∧ b < 0x80 ∧ b ≠ 34 ∧ b ≠ 92) :
    ∀ f, s.length < f → parseStringBodyF f (s ++ 34 :: u) = some (s, u) := by
  induction s with
  | nil =>
    intro f hf
    cases f with
    | zero => omega
    | succ f' =>
      rw [List.nil_append, parseStringBodyF.eq_3, parseChar_quote]
  | cons b s' ih =>
    intro f hf
    cases f with
    | zero => omega
    | succ f' =>
      have hb := h b (List.mem_cons_self b s')
      rw [List.cons_append, parseStringBodyF.eq_3,
        parseChar_raw _ _ _ hb.2.2.1 hb.2.2.2,
        parseRawChar_plain _ _ _ hb.1 hb.2.1,
        ih (fun x hx => h x (List.mem_cons_of_mem b hx)) f'
          (by simp only [List.length_cons] at hf; omega),
        prependStr_some]
      rw [List.singleton_append]

theorem parseStringBody_plain (s u : List Nat)
    (h : ∀ b ∈ s, 0x20 ≤ b ∧ b < 0x80 ∧ b ≠ 34 ∧ b ≠ 92) :
    parseStringBody (s ++ 34 :: u) = some (s, u) := by
  unfold parseStringBody
  refine parseStringBodyF_plain s u h _ ?_
  rw [List.length_append]
  simp only [List.length_cons]
  omega

end GoJson

namespace GoJson

theorem b64Char_plain (n : Nat) :
    0x20 ≤ b64Char n ∧ b64Char n < 0x80 ∧ b64Char n ≠ 34 ∧ b64Char n ≠ 92 := by
  unfold b64Char
  split_ifs <;> omega

theorem b64Char_ne_61 (n : Nat) : b64Char n ≠ 61 := by
  unfold b64Char
  split_ifs <;> omega

theorem b64Val_char (n : Nat) (h : n < 64) : b64Val (b64Char n) = some n := by
  unfold b64Char b64Val
  split_ifs <;> (congr 1; omega)

/-- Every byte of a base64 text is plain printable ASCII. -/
theorem base64Encode_plain (p : List Nat) :
    ∀ x ∈ base64Encode p, 0x20 ≤ x ∧ x < 0x80 ∧ x ≠ 34 ∧ x ≠ 92 := by
  induction p using base64Encode.induct with
  | case1 a b c rest ih =>
    intro x hx
    simp only [base64Encode, List.mem_cons] at hx
    rcases hx with rfl | rfl | rfl | rfl | hx
    · exact b64Char_plain _
    · exact b64Char_plain _
    · exact b64Char_plain _
    · exact b64Char_plain _
    · exact ih x hx
  | case2 a b =>
    intro x hx
    simp only [base64Encode, List.mem_cons] at hx
    rcases hx with rfl | rfl | rfl | rfl | hx
    · exact b64Char_plain _
    · exact b64Char_plain _
    · exact b64Char_plain _
    · omega
    · simp at hx
  | case3 a =>
    intro x hx
    simp only [base64Encode, List.mem_cons] at hx
    rcases hx with rfl | rfl | rfl | rfl | hx
    · exact b64Char_plain _
    · exact b64Char_plain _
    · omega
    · omega
    · simp at hx
  | case4 =>
    intro x hx
    simp [base64Encode] at hx

/-- `base64.StdEncoding` decoding inverts encoding on byte strings. -/
theorem base64Decode_encode (p : List Nat) (h : ∀ x ∈ p, x < 256) :
    base64Decode (base64Encode p) = some p := by
  induction p using base64Encode.induct with
  | case1 a b c rest ih =>
    have ha : a < 256 := h a (by simp)
    have hb : b < 256 := h b (by simp)
    have hc : c < 256 := h c (by simp)
    have hv1 : b64Val (b64Char (a / 4)) = some (a / 4) := b64Val_char _ (by omega)
    have hv2 : b64Val (b64Char (a % 4 * 16 + b / 16)) = some (a % 4 * 16 + b / 16) :=
      b64Val_char _ (by omega)
    have hv3 : b64Val (b64Char (b % 16 * 4 + c / 64)) = some (b % 16 * 4 + c / 64) :=
      b64Val_char _ (by omega)
    have hv4 : b64Val (b64Char (c % 64)) = some (c % 64) := b64Val_char _ (by omega)
    have hn3 : (b64Char (b % 16 * 4 + c / 64) = 61) = False := by
      simp [b64Char_ne_61]
    have hn4 : (b64Char (c % 64) = 61) = False := by
      simp [b64Char_ne_61]
    have hrec : base64Decode (base64Encode rest) = some rest :=
      ih fun x hx => h x (by simp [hx])
    have e1 : a / 4 * 4 + (a % 4 * 16 + b / 16) / 16 = a := by omega
    have e2 : (a % 4 * 16 + b / 16) % 16 * 16 + (b % 16 * 4 + c / 64) / 4 = b := by omega
    have e3 : (b % 16 * 4 + c / 64) % 4 * 64 + c % 64 = c := by omega
    simp only [base64Encode, base64Decode, hv1, hv2, hv3, hv4, hn3, hn4, if_false, hrec,
      e1, e2, e3]
  | case2 a b =>
    have ha : a < 256 := h a (by simp)
    have hb : b < 256 := h b (by simp)
    have hv1 : b64Val (b64Char (a / 4)) = some (a / 4) := b64Val_char _ (by omega)
    have hv2 : b64Val (b64Char (a % 4 * 16 + b / 16)) = some (a % 4 * 16 + b / 16) :=
      b64Val_char _ (by omega)
    have hv3 : b64Val (b64Char (b % 16 * 4)) = some (b % 16 * 4) := b64Val_char _ (by omega)
    have hn3 : (b64Char (b % 16 * 4) = 61) = False := by
      simp [b64Char_ne_61]
    have e1 : a / 4 * 4 + (a % 4 * 16 + b / 16) / 16 = a := by omega
    have e2 : (a % 4 * 16 + b / 16) % 16 * 16 + b % 16 * 4 / 4 = b := by omega
    simp only [base64Encode, base64Decode, hv1, hv2, hv3, hn3, if_false, if_true, e1, e2]
  | case3 a =>
    have ha : a < 256 := h a (by simp)
    have hv1 : b64Val (b64Char (a / 4)) = some (a / 4) := b64Val_char _ (by omega)
    have hv2 : b64Val (b64Char (a % 4 * 16)) = some (a % 4 * 16) := b64Val_char _ (by omega)
    have e1 : a / 4 * 4 + a % 4 * 16 / 16 = a := by omega
    simp only [base64Encode, base64Decode, hv1, hv2, e1]
    norm_num
  | case4 => rfl

end GoJson

namespace GoJson

theorem skipWs_nil : skipWs [] = [] := rfl

theorem skipWs_not (b : Nat) (h : isWs b = false) (r : List Nat) :
    skipWs (b :: r) = b :: r := by
  simp only [skipWs, h, Bool.false_eq_true, if_false]

/-- One member of the object: quoted plain key, colon, then the value at
the member-value decoder, then comma or closing brace. -/
theorem parseMembers_one (g : Nat) (key : List Nat)
    (hkey : ∀ b ∈ key, 0x20 ≤ b ∧ b < 0x80 ∧ b ≠ 34 ∧ b ≠ 92)
    (u : List Nat) (first : Bool) (st : RPCMessage × Bool) :
    parseMembers (g + 1) (34 :: (key ++ 34 :: 58 :: u)) first st
      = (match parseMemberValue g (skipWs u) key st with
         | none => none
         | some (st', r3) =>
           match skipWs r3 with
           | 44 :: r4 => parseMembers g (skipWs r4) false st'
           | 125 :: r4 => some (st', r4)
           | _ => none) := by
  simp only [parseMembers, parseString]
  have hk := parseStringBody_plain key (58 :: u) hkey
  simp only [hk]
  rw [skipWs_not 58 (by decide)]

theorem parseMemberValue_sm (g : Nat) (sm : List Nat) (hsm : Utf8Valid sm)
    (u : List Nat) (st : RPCMessage × Bool) :
    parseMemberValue g (34 :: (jsonEscape sm ++ 34 :: u)) (asciiBytes "ServiceMethod") st
      = some (({ st.1 with ServiceMethod := sm }, st.2), u) := by
  simp only [parseMemberValue]
  rw [if_pos (by decide : keyMatch (asciiBytes "ServiceMethod")
    (asciiBytes "ServiceMethod") = true)]
  simp only [parseStringField]
  have hv := parseStringBody_escape sm u hsm
  simp only [hv, Option.map_some']

theorem parseMemberValue_err (g : Nat) (err : List Nat) (herr : Utf8Valid err)
    (u : List Nat) (st : RPCMessage × Bool) :
    parseMemberValue g (34 :: (jsonEscape err ++ 34 :: u)) (asciiBytes "Error") st
      = some (({ st.1 with Error := err }, st.2), u) := by
  simp only [parseMemberValue]
  rw [if_neg (by decide : ¬keyMatch (asciiBytes "Error")
      (asciiBytes "ServiceMethod") = true),
    if_pos (by decide : keyMatch (asciiBytes "Error") (asciiBytes "Error") = true)]
  simp only [parseStringField]
  have hv := parseStringBody_escape err u herr
  simp only [hv, Option.map_some']

theorem parseMemberValue_payload (g : Nat) (p : List Nat) (hp : ∀ x ∈ p, x < 256)
    (u : List Nat) (st : RPCMessage × Bool) :
    parseMemberValue g (34 :: (base64Encode p ++ 34 :: u)) (asciiBytes "Payload") st
      = some (({ st.1 with Payload := p }, st.2), u) := by
  simp only [parseMemberValue]
  rw [if_neg (by decide : ¬keyMatch (asciiBytes "Payload")
      (asciiBytes "ServiceMethod") = true),
    if_neg (by decide : ¬keyMatch (asciiBytes "Payload") (asciiBytes "Error") = true),
    if_pos (by decide : keyMatch (asciiBytes "Payload") (asciiBytes "Payload") = true)]
  simp only [parseBytesField]
  have hb := parseStringBody_plain (base64Encode p) u (base64Encode_plain p)
  have hd := base64Decode_encode p hp
  simp only [hb, Option.map_some', hd]

/-- The member loop of the decoder consumes the three members `Marshal`
emits and reassembles the original message. -/
theorem parseMembers_marshal (f : Nat) (m : RPCMessage)
    (h1 : Utf8Valid m.ServiceMethod) (h2 : Utf8Valid m.Error)
    (h3 : ∀ x ∈ m.Payload, x < 256) :
    parseMembers (f + 3)
      (34 :: (asciiBytes "ServiceMethod" ++ 34 :: 58 :: 34 ::
        (jsonEscape m.ServiceMethod ++ 34 :: 44 :: 34 ::
          (asciiBytes "Error" ++ 34 :: 58 :: 34 ::
            (jsonEscape m.Error ++ 34 :: 44 :: 34 ::
              (asciiBytes "Payload" ++ 34 :: 58 :: 34 ::
                (base64Encode m.Payload ++ [34, 125])))))))
      true (RPCMessage.zero, true)
      = some ((m, true), []) := by
  obtain ⟨sm, err, p⟩ := m
  simp only at h1 h2 h3
  rw [show f + 3 = f + 2 + 1 from rfl]
  simp only [parseMembers_one (f + 2) (asciiBytes "ServiceMethod") (by decide),
    parseMembers_one (f + 1) (asciiBytes "Error") (by decide),
    parseMembers_one f (asciiBytes "Payload") (by decide),
    skipWs_not 34 (by decide), skipWs_not 44 (by decide), skipWs_not 125 (by decide),
    parseMemberValue_sm (f + 2) sm h1, parseMemberValue_err (f + 1) err h2,
    parseMemberValue_payload f p h3,
    show f + 2 = f + 1 + 1 from rfl, RPCMessage.zero]

end GoJson

namespace GoJson

theorem Unmarshal_eval (data r : List Nat) (st : RPCMessage × Bool)
    (hd : skipWs data = 123 :: r)
    (hlen : 2 ≤ data.length)
    (hmem : ∀ g, parseMembers (g + 3) (skipWs r) true (RPCMessage.zero, true)
      = some (st, [])) :
    Unmarshal data = st := by
  unfold Unmarshal
  have hf : data.length + 1 = data.length - 2 + 3 := by omega
  simp only [hd, hf, hmem, skipWs_nil, eq_self_iff_true, if_true]

/-- `json.Unmarshal` inverts `json.Marshal` on envelopes whose string
fields are valid UTF-8 and whose payload is a byte string. -/
theorem Unmarshal_Marshal (m : RPCMessage)
    (h1 : Utf8Valid m.ServiceMethod) (h2 : Utf8Valid m.Error)
    (h3 : ∀ x ∈ m.Payload, x < 256) :
    Unmarshal (Marshal m) = (m, true) := by
  have hM : Marshal m = 123 :: (34 :: (asciiBytes "ServiceMethod" ++ 34 :: 58 :: 34 ::
      (jsonEscape m.ServiceMethod ++ 34 :: 44 :: 34 ::
        (asciiBytes "Error" ++ 34 :: 58 :: 34 ::
          (jsonEscape m.Error ++ 34 :: 44 :: 34 ::
            (asciiBytes "Payload" ++ 34 :: 58 :: 34 ::
              (base64Encode m.Payload ++ [34, 125]))))))) := by
    unfold Marshal jsonQuote
    simp only [List.cons_append, List.nil_append, List.append_assoc]
  refine Unmarshal_eval (Marshal m)
    (34 :: (asciiBytes "ServiceMethod" ++ 34 :: 58 :: 34 ::
      (jsonEscape m.ServiceMethod ++ 34 :: 44 :: 34 ::
        (asciiBytes "Error" ++ 34 :: 58 :: 34 ::
          (jsonEscape m.Error ++ 34 :: 44 :: 34 ::
            (asciiBytes "Payload" ++ 34 :: 58 :: 34 ::
              (base64Encode m.Payload ++ [34, 125])))))))
    (m, true) ?_ ?_ ?_
  · rw [hM]
    exact skipWs_not 123 (by decide) _
  · rw [hM]
    simp only [List.length_cons]
    omega
  · intro g
    rw [skipWs_not 34 (by decide)]
    exact parseMembers_marshal g m h1 h2 h3

end GoJson

/-! ## Lemmas: big-endian integers -/

theorem getBe16_be16 (n : Nat) : getBe16 (n / 256 % 256) (n % 256) = n % 65536 := by
  unfold getBe16
  omega

theorem getBe32_be32 (n : Nat) :
    getBe32 (n / 2 ^ 24 % 256) (n / 2 ^ 16 % 256) (n / 256 % 256) (n % 256) = n % 4294967296 := by
  unfold getBe32
  norm_num
  omega

theorem be16_length (n : Nat) : (be16 n).length = 2 := rfl

theorem be32_length (n : Nat) : (be32 n).length = 4 := rfl

namespace BinaryCodec

theorem readU16_append (pre post : List Nat) (n : Nat) :
    readU16 (pre ++ (be16 n ++ post)) pre.length = some (n % 65536) := by
  unfold readU16 be16
  rw [if_pos (by simp only [List.length_append, List.length_cons, List.length_nil]; omega)]
  rw [List.getD_append_right _ _ _ _ (Nat.le_refl _),
      List.getD_append_right _ _ _ _ (Nat.le_add_right _ _)]
  simp [getBe16_be16]

theorem readU32_append (pre post : List Nat) (n : Nat) :
    readU32 (pre ++ (be32 n ++ post)) pre.length = some (n % 4294967296) := by
  unfold readU32 be32
  rw [if_pos (by simp only [List.length_append, List.length_cons, List.length_nil]; omega)]
  rw [List.getD_append_right _ _ _ _ (Nat.le_refl _),
      List.getD_append_right _ _ _ _ (Nat.le_add_right _ _),
      List.getD_append_right _ _ _ _ (Nat.le_add_right _ _),
      List.getD_append_right _ _ _ _ (Nat.le_add_right _ _)]
  simp only [Nat.sub_self, Nat.add_sub_cancel_left, List.cons_append, List.getD_cons_zero,
    List.getD_cons_succ]
  rw [getBe32_be32]

theorem readSlice_append (pre mid post : List Nat) :
    readSlice (pre ++ (mid ++ post)) pre.length mid.length = some mid := by
  unfold readSlice
  rw [if_pos (by simp)]
  rw [List.drop_left, List.take_left]

/-- The pure round-trip of the binary codec, under the bounds Go's length
prefixes can represent. -/
theorem decode_encode (m : RPCMessage)
    (h1 : m.ServiceMethod.length < 65536)
    (h2 : m.Error.length < 65536)
    (h3 : m.Payload.length < 4294967296) :
    Decode (Encode m) = some m := by
  obtain ⟨sm, e, p⟩ := m
  simp only at h1 h2 h3
  have hE : Encode ⟨sm, e, p⟩ =
      be16 sm.length ++ (sm ++ (be32 p.length ++ (p ++ (be16 e.length ++ e)))) := by
    simp [Encode]
  have r1 : readU16 (Encode ⟨sm, e, p⟩) 0 = some sm.length := by
    have := readU16_append [] (sm ++ (be32 p.length ++ (p ++ (be16 e.length ++ e)))) sm.length
    simpa [hE, Nat.mod_eq_of_lt h1] using this
  have r2 : readSlice (Encode ⟨sm, e, p⟩) 2 sm.length = some sm := by
    have := readSlice_append (be16 sm.length) sm (be32 p.length ++ (p ++ (be16 e.length ++ e)))
    simpa [hE, be16_length] using this
  have r3 : readU32 (Encode ⟨sm, e, p⟩) (2 + sm.length) = some p.length := by
    have := readU32_append (be16 sm.length ++ sm) (p ++ (be16 e.length ++ e)) p.length
    simpa [hE, be16_length, Nat.mod_eq_of_lt h3] using this
  have r4 : readSlice (Encode ⟨sm, e, p⟩) (2 + sm.length + 4) p.length = some p := by
    have := readSlice_append (be16 sm.length ++ (sm ++ be32 p.length)) p (be16 e.length ++ e)
    simpa [hE, be16_length, be32_length, Nat.add_assoc, Nat.add_comm, Nat.add_left_comm]
      using this
  have r5 : readU16 (Encode ⟨sm, e, p⟩) (2 + sm.length + 4 + p.length) = some e.length := by
    have := readU16_append (be16 sm.length ++ (sm ++ (be32 p.length ++ p))) e e.length
    simpa [hE, be16_length, be32_length, Nat.mod_eq_of_lt h2, Nat.add_assoc, Nat.add_comm,
      Nat.add_left_comm] using this
  have r6 : readSlice (Encode ⟨sm, e, p⟩) (2 + sm.length + 4 + p.length + 2) e.length
      = some e := by
    have := readSlice_append (be16 sm.length ++ (sm ++ (be32 p.length ++ (p ++ be16 e.length))))
      e []
    simpa [hE, be16_length, be32_length, Nat.add_assoc, Nat.add_comm, Nat.add_left_comm]
      using this
  simp only [Decode, r1, r2, r3, r4, r5, r6]

/-- `BinaryCodec.Decode` panics exactly on the inputs whose length
prefixes overrun the buffer: there is no error-returning branch at all
(the result type `Option RPCMessage` has no error value), and the `none`
(panic) branch is taken iff the input is not well-formed. -/
theorem decode_none_iff (data : List Nat) :
    Decode data = none ↔ ¬ WellFormedInput data := by
  by_cases h1 : 2 ≤ data.length
  · have hu1 : readU16 data 0 = some (getBe16 (data.getD 0 0) (data.getD 1 0)) := by
      unfold readU16
      rw [if_pos (by omega)]
    by_cases h2a : 2 + getBe16 (data.getD 0 0) (data.getD 1 0) ≤ data.length
    · have hsl : readSlice data 2 (getBe16 (data.getD 0 0) (data.getD 1 0)) = some ((data.drop 2).take (getBe16 (data.getD 0 0) (data.getD 1 0))) := by
        unfold readSlice
        rw [if_pos (by omega)]
      by_cases h2 : 2 + getBe16 (data.getD 0 0) (data.getD 1 0) + 4 ≤ data.length
      · have hu2 : readU32 data (2 + getBe16 (data.getD 0 0) (data.getD 1 0)) = some (getBe32 (data.getD (2 + getBe16 (data.getD 0 0) (data.getD 1 0)) 0) (data.getD (2 + getBe16 (data.getD 0 0) (data.getD 1 0) + 1) 0) (data.getD (2 + getBe16 (data.getD 0 0) (data.getD 1 0) + 2) 0) (data.getD (2 + getBe16 (data.getD 0 0) (data.getD 1 0) + 3) 0)) := by
          unfold readU32
          rw [if_pos (by omega)]
        by_cases h3a : 2 + getBe16 (data.getD 0 0) (data.getD 1 0) + 4 + getBe32 (data.getD (2 + getBe16 (data.getD 0 0) (data.getD 1 0)) 0) (data.getD (2 + getBe16 (data.getD 0 0) (data.getD 1 0) + 1) 0) (data.getD (2 + getBe16 (data.getD 0 0) (data.getD 1 0) + 2) 0) (data.getD (2 + getBe16 (data.getD 0 0) (data.getD 1 0) + 3) 0) ≤ data.length
        · have hsl2 : readSlice data (2 + getBe16 (data.getD 0 0) (data.getD 1 0) + 4) (getBe32 (data.getD (2 + getBe16 (data.getD 0 0) (data.getD 1 0)) 0) (data.getD (2 + getBe16 (data.getD 0 0) (data.getD 1 0) + 1) 0) (data.getD (2 + getBe16 (data.getD 0 0) (data.getD 1 0) + 2) 0) (data.getD (2 + getBe16 (data.getD 0 0) (data.getD 1 0) + 3) 0))
              = some ((data.drop (2 + getBe16 (data.getD 0 0) (data.getD 1 0) + 4)).take (getBe32 (data.getD (2 + getBe16 (data.getD 0 0) (data.getD 1 0)) 0) (data.getD (2 + getBe16 (data.getD 0 0) (data.getD 1 0) + 1) 0) (data.getD (2 + getBe16 (data.getD 0 0) (data.getD 1 0) + 2) 0) (data.getD (2 + getBe16 (data.getD 0 0) (data.getD 1 0) + 3) 0))) := by
            unfold readSlice
            rw [if_pos (by omega)]
          by_cases h3 : 2 + getBe16 (data.getD 0 0) (data.getD 1 0) + 4 + getBe32 (data.getD (2 + getBe16 (data.getD 0 0) (data.getD 1 0)) 0) (data.getD (2 + getBe16 (data.getD 0 0) (data.getD 1 0) + 1) 0) (data.getD (2 + getBe16 (data.getD 0 0) (data.getD 1 0) + 2) 0) (data.getD (2 + getBe16 (data.getD 0 0) (data.getD 1 0) + 3) 0) + 2 ≤ data.length
          · have hu3 : readU16 data (2 + getBe16 (data.getD 0 0) (data.getD 1 0) + 4 + getBe32 (data.getD (2 + getBe16 (data.getD 0 0) (data.getD 1 0)) 0) (data.getD (2 + getBe16 (data.getD 0 0) (data.getD 1 0) + 1) 0) (data.getD (2 + getBe16 (data.getD 0 0) (data.getD 1 0) + 2) 0) (data.getD (2 + getBe16 (data.getD 0 0) (data.getD 1 0) + 3) 0)) = some (getBe16 (data.getD (2 + getBe16 (data.getD 0 0) (data.getD 1 0) + 4 + getBe32 (data.getD (2 + getBe16 (data.getD 0 0) (data.getD 1 0)) 0) (data.getD (2 + getBe16 (data.getD 0 0) (data.getD 1 0) + 1) 0) (data.getD (2 + getBe16 (data.getD 0 0) (data.getD 1 0) + 2) 0) (data.getD (2 + getBe16 (data.getD 0 0) (data.getD 1 0) + 3) 0)) 0) (data.getD (2 + getBe16 (data.getD 0 0) (data.getD 1 0) + 4 + getBe32 (data.getD (2 + getBe16 (data.getD 0 0) (data.getD 1 0)) 0) (data.getD (2 + getBe16 (data.getD 0 0) (data.getD 1 0) + 1) 0) (data.getD (2 + getBe16 (data.getD 0 0) (data.getD 1 0) + 2) 0) (data.getD (2 + getBe16 (data.getD 0 0) (data.getD 1 0) + 3) 0) + 1) 0)) := by
              unfold readU16
              rw [if_pos (by omega)]
            by_cases h4 : 2 + getBe16 (data.getD 0 0) (data.getD 1 0) + 4 + getBe32 (data.getD (2 + getBe16 (data.getD 0 0) (data.getD 1 0)) 0) (data.getD (2 + getBe16 (data.getD 0 0) (data.getD 1 0) + 1) 0) (data.getD (2 + getBe16 (data.getD 0 0) (data.getD 1 0) + 2) 0) (data.getD (2 + getBe16 (data.getD 0 0) (data.getD 1 0) + 3) 0) + 2 + getBe16 (data.getD (2 + getBe16 (data.getD 0 0) (data.getD 1 0) + 4 + getBe32 (data.getD (2 + getBe16 (data.getD 0 0) (data.getD 1 0)) 0) (data.getD (2 + getBe16 (data.getD 0 0) (data.getD 1 0) + 1) 0) (data.getD (2 + getBe16 (data.getD 0 0) (data.getD 1 0) + 2) 0) (data.getD (2 + getBe16 (data.getD 0 0) (data.getD 1 0) + 3) 0)) 0) (data.getD (2 + getBe16 (data.getD 0 0) (data.getD 1 0) + 4 + getBe32 (data.getD (2 + getBe16 (data.getD 0 0) (data.getD 1 0)) 0) (data.getD (2 + getBe16 (data.getD 0 0) (data.getD 1 0) + 1) 0) (data.getD (2 + getBe16 (data.getD 0 0) (data.getD 1 0) + 2) 0) (data.getD (2 + getBe16 (data.getD 0 0) (data.getD 1 0) + 3) 0) + 1) 0) ≤ data.length
            · have hsl3 : readSlice data (2 + getBe16 (data.getD 0 0) (data.getD 1 0) + 4 + getBe32 (data.getD (2 + getBe16 (data.getD 0 0) (data.getD 1 0)) 0) (data.getD (2 + getBe16 (data.getD 0 0) (data.getD 1 0) + 1) 0) (data.getD (2 + getBe16 (data.getD 0 0) (data.getD 1 0) + 2) 0) (data.getD (2 + getBe16 (data.getD 0 0) (data.getD 1 0) + 3) 0) + 2) (getBe16 (data.getD (2 + getBe16 (data.getD 0 0) (data.getD 1 0) + 4 + getBe32 (data.getD (2 + getBe16 (data.getD 0 0) (data.getD 1 0)) 0) (data.getD (2 + getBe16 (data.getD 0 0) (data.getD 1 0) + 1) 0) (data.getD (2 + getBe16 (data.getD 0 0) (data.getD 1 0) + 2) 0) (data.getD (2 + getBe16 (data.getD 0 0) (data.getD 1 0) + 3) 0)) 0) (data.getD (2 + getBe16 (data.getD 0 0) (data.getD 1 0) + 4 + getBe32 (data.getD (2 + getBe16 (data.getD 0 0) (data.getD 1 0)) 0) (data.getD (2 + getBe16 (data.getD 0 0) (data.getD 1 0) + 1) 0) (data.getD (2 + getBe16 (data.getD 0 0) (data.getD 1 0) + 2) 0) (data.getD (2 + getBe16 (data.getD 0 0) (data.getD 1 0) + 3) 0) + 1) 0))
                  = some ((data.drop (2 + getBe16 (data.getD 0 0) (data.getD 1 0) + 4 + getBe32 (data.getD (2 + getBe16 (data.getD 0 0) (data.getD 1 0)) 0) (data.getD (2 + getBe16 (data.getD 0 0) (data.getD 1 0) + 1) 0) (data.getD (2 + getBe16 (data.getD 0 0) (data.getD 1 0) + 2) 0) (data.getD (2 + getBe16 (data.getD 0 0) (data.getD 1 0) + 3) 0) + 2)).take (getBe16 (data.getD (2 + getBe16 (data.getD 0 0) (data.getD 1 0) + 4 + getBe32 (data.getD (2 + getBe16 (data.getD 0 0) (data.getD 1 0)) 0) (data.getD (2 + getBe16 (data.getD 0 0) (data.getD 1 0) + 1) 0) (data.getD (2 + getBe16 (data.getD 0 0) (data.getD 1 0) + 2) 0) (data.getD (2 + getBe16 (data.getD 0 0) (data.getD 1 0) + 3) 0)) 0) (data.getD (2 + getBe16 (data.getD 0 0) (data.getD 1 0) + 4 + getBe32 (data.getD (2 + getBe16 (data.getD 0 0) (data.getD 1 0)) 0) (data.getD (2 + getBe16 (data.getD 0 0) (data.getD 1 0) + 1) 0) (data.getD (2 + getBe16 (data.getD 0 0) (data.getD 1 0) + 2) 0) (data.getD (2 + getBe16 (data.getD 0 0) (data.getD 1 0) + 3) 0) + 1) 0))) := by
                unfold readSlice
                rw [if_pos (by omega)]
              have hD : (Decode data).isSome := by
                simp only [Decode, hu1, hsl, hu2, hsl2, hu3, hsl3, Option.isSome_some]
              constructor
              · intro h
                rw [h] at hD
                simp at hD
              · intro hnwf
                exfalso
                apply hnwf
                simp only [WellFormedInput]
                exact ⟨by omega, by omega, by omega, by omega⟩
            · have hsl3 : readSlice data (2 + getBe16 (data.getD 0 0) (data.getD 1 0) + 4 + getBe32 (data.getD (2 + getBe16 (data.getD 0 0) (data.getD 1 0)) 0) (data.getD (2 + getBe16 (data.getD 0 0) (data.getD 1 0) + 1) 0) (data.getD (2 + getBe16 (data.getD 0 0) (data.getD 1 0) + 2) 0) (data.getD (2 + getBe16 (data.getD 0 0) (data.getD 1 0) + 3) 0) + 2) (getBe16 (data.getD (2 + getBe16 (data.getD 0 0) (data.getD 1 0) + 4 + getBe32 (data.getD (2 + getBe16 (data.getD 0 0) (data.getD 1 0)) 0) (data.getD (2 + getBe16 (data.getD 0 0) (data.getD 1 0) + 1) 0) (data.getD (2 + getBe16 (data.getD 0 0) (data.getD 1 0) + 2) 0) (data.getD (2 + getBe16 (data.getD 0 0) (data.getD 1 0) + 3) 0)) 0) (data.getD (2 + getBe16 (data.getD 0 0) (data.getD 1 0) + 4 + getBe32 (data.getD (2 + getBe16 (data.getD 0 0) (data.getD 1 0)) 0) (data.getD (2 + getBe16 (data.getD 0 0) (data.getD 1 0) + 1) 0) (data.getD (2 + getBe16 (data.getD 0 0) (data.getD 1 0) + 2) 0) (data.getD (2 + getBe16 (data.getD 0 0) (data.getD 1 0) + 3) 0) + 1) 0)) = none := by
                unfold readSlice
                rw [if_neg (by omega)]
              have hD : Decode data = none := by
                simp only [Decode, hu1, hsl, hu2, hsl2, hu3, hsl3]
              rw [hD]
              constructor
              · intro _
                intro hwf
                simp only [WellFormedInput] at hwf
                omega
              · intro _
                rfl

          · have hu3 : readU16 data (2 + getBe16 (data.getD 0 0) (data.getD 1 0) + 4 + getBe32 (data.getD (2 + getBe16 (data.getD 0 0) (data.getD 1 0)) 0) (data.getD (2 + getBe16 (data.getD 0 0) (data.getD 1 0) + 1) 0) (data.getD (2 + getBe16 (data.getD 0 0) (data.getD 1 0) + 2) 0) (data.getD (2 + getBe16 (data.getD 0 0) (data.getD 1 0) + 3) 0)) = none := by
              unfold readU16
              rw [if_neg (by omega)]
            have hD : Decode data = none := by
              simp only [Decode, hu1, hsl, hu2, hsl2, hu3]
            rw [hD]
            constructor
            · intro _
              intro hwf
              simp only [WellFormedInput] at hwf
              omega
            · intro _
              rfl

        · have hsl2 : readSlice data (2 + getBe16 (data.getD 0 0) (data.getD 1 0) + 4) (getBe32 (data.getD (2 + getBe16 (data.getD 0 0) (data.getD 1 0)) 0) (data.getD (2 + getBe16 (data.getD 0 0) (data.getD 1 0) + 1) 0) (data.getD (2 + getBe16 (data.getD 0 0) (data.getD 1 0) + 2) 0) (data.getD (2 + getBe16 (data.getD 0 0) (data.getD 1 0) + 3) 0)) = none := by
            unfold readSlice
            rw [if_neg (by omega)]
          have hD : Decode data = none := by
            simp only [Decode, hu1, hsl, hu2, hsl2]
          rw [hD]
          constructor
          · intro _
            intro hwf
            simp only [WellFormedInput] at hwf
            omega
          · intro _
            rfl

      · have hu2 : readU32 data (2 + getBe16 (data.getD 0 0) (data.getD 1 0)) = none := by
          unfold readU32
          rw [if_neg (by omega)]
        have hD : Decode data = none := by
          simp only [Decode, hu1, hsl, hu2]
        rw [hD]
        constructor
        · intro _
          intro hwf
          simp only [WellFormedInput] at hwf
          omega
        · intro _
          rfl

    · have hsl : readSlice data 2 (getBe16 (data.getD 0 0) (data.getD 1 0)) = none := by
        unfold readSlice
        rw [if_neg (by omega)]
      have hD : Decode data = none := by
        simp only [Decode, hu1, hsl]
      rw [hD]
      constructor
      · intro _
        intro hwf
        simp only [WellFormedInput] at hwf
        omega
      · intro _
        rfl

  · have hu1 : readU16 data 0 = none := by
      unfold readU16
      rw [if_neg (by omega)]
    have hD : Decode data = none := by
      simp only [Decode, hu1]
    rw [hD]
    constructor
    · intro _
      intro hwf
      simp only [WellFormedInput] at hwf
      omega
    · intro _
      rfl


/-- A 65536-byte method name overflows the `uint16` length prefix: the
encoder writes `0` as the method length, so the decoder reads method
bytes as the payload-length prefix and panics on the resulting
out-of-range slice. -/
theorem decode_encode_overflow :
    Decode (Encode ⟨List.replicate 65536 97, [], []⟩) = none := by
  have hR4 : List.replicate 4 (97 : Nat) = [97, 97, 97, 97] := rfl
  have hR : List.replicate 65536 (97 : Nat) = [97, 97, 97, 97] ++ List.replicate 65532 97 := by
    rw [← hR4, ← List.replicate_add]
  have hE : Encode ⟨List.replicate 65536 97, [], []⟩
      = 0 :: 0 :: (97 :: 97 :: 97 :: 97 :: (List.replicate 65532 97 ++ [0, 0, 0, 0, 0, 0])) := by
    unfold Encode
    rw [List.length_replicate]
    rw [hR]
    norm_num [be16, be32]
  have hlen : (Encode ⟨List.replicate 65536 97, [], []⟩).length = 65544 := by
    rw [hE]
    rw [List.length_cons, List.length_cons, List.length_cons, List.length_cons, List.length_cons,
      List.length_cons, List.length_append, List.length_replicate]
    norm_num
  have hm : getBe16 ((Encode ⟨List.replicate 65536 97, [], []⟩).getD 0 0)
      ((Encode ⟨List.replicate 65536 97, [], []⟩).getD 1 0) = 0 := by
    rw [hE]
    rfl
  have hp : getBe32 ((Encode ⟨List.replicate 65536 97, [], []⟩).getD (2 + 0) 0)
      ((Encode ⟨List.replicate 65536 97, [], []⟩).getD (2 + 0 + 1) 0)
      ((Encode ⟨List.replicate 65536 97, [], []⟩).getD (2 + 0 + 2) 0)
      ((Encode ⟨List.replicate 65536 97, [], []⟩).getD (2 + 0 + 3) 0) = 1633771873 := by
    rw [hE]
    rfl
  rw [decode_none_iff]
  intro hwf
  simp only [WellFormedInput] at hwf
  rw [hm] at hwf
  rw [hp] at hwf
  omega

end BinaryCodec

/-! ## Lemmas: substring search -/

theorem isPrefixOf_append_of_isPrefixOf {p l : List Nat} (t : List Nat)
    (h : p.isPrefixOf l = true) : p.isPrefixOf (l ++ t) = true := by
  induction p generalizing l with
  | nil => simp [List.isPrefixOf]
  | cons a p ih =>
    cases l with
    | nil => simp [List.isPrefixOf] at h
    | cons b l =>
      simp only [List.isPrefixOf, List.cons_append, Bool.and_eq_true] at h ⊢
      exact ⟨h.1, ih h.2⟩

theorem listContains_of_isPrefixOf {p l : List Nat} (h : p.isPrefixOf l = true) :
    listContains p l = true := by
  cases l with
  | nil =>
    cases p with
    | nil => rfl
    | cons a p => simp [List.isPrefixOf] at h
  | cons b l =>
    unfold listContains
    rw [h]
    rfl

theorem listContains_prefix_append (p pre t : List Nat) (h : p.isPrefixOf pre = true) :
    listContains p (pre ++ t) = true :=
  listContains_of_isPrefixOf (isPrefixOf_append_of_isPrefixOf t h)

/-! ## Lemmas: framer -/

namespace Protocol

/-- `protocol.Encode` writes exactly `14 + len(body)` bytes. -/
theorem encode_frame_length (h : Header) (body : List Nat) :
    (Encode h body).length = 14 + body.length := by
  simp only [Encode, be32, List.length_cons, List.length_append, List.length_nil]
  omega

theorem decode_encode_frame (h : Header) (body rest : List Nat) (hwf : h.WF)
    (hct : h.CodecType < 2) (hmt : h.MsgType < 3) (hbl : h.BodyLen = body.length) :
    Decode (Encode h body ++ rest) = .ok (h, body, rest) := by
  obtain ⟨ct, mt, sq, bl⟩ := h
  obtain ⟨hw1, hw2, hw3, hw4⟩ := hwf
  dsimp only at hct hmt hbl hw1 hw2 hw3 hw4
  subst hbl
  have hs : Encode ⟨ct, mt, sq, body.length⟩ body ++ rest
      = 0x6d :: 0x72 :: 0x70 :: 0x01 :: ct :: mt ::
        (be32 sq ++ (be32 body.length ++ (body ++ rest))) := by
    simp [Encode]
  have hlen : (Encode ⟨ct, mt, sq, body.length⟩ body ++ rest).length
      = 14 + body.length + rest.length := by
    rw [hs]
    simp only [be32, List.length_cons, List.length_append, List.length_nil]
    omega
  have g0 : (Encode ⟨ct, mt, sq, body.length⟩ body ++ rest).getD 0 0 = 0x6d := by rw [hs]; rfl
  have g1 : (Encode ⟨ct, mt, sq, body.length⟩ body ++ rest).getD 1 0 = 0x72 := by rw [hs]; rfl
  have g2 : (Encode ⟨ct, mt, sq, body.length⟩ body ++ rest).getD 2 0 = 0x70 := by rw [hs]; rfl
  have g3 : (Encode ⟨ct, mt, sq, body.length⟩ body ++ rest).getD 3 0 = 0x01 := by rw [hs]; rfl
  have g4 : (Encode ⟨ct, mt, sq, body.length⟩ body ++ rest).getD 4 0 = ct := by rw [hs]; rfl
  have g5 : (Encode ⟨ct, mt, sq, body.length⟩ body ++ rest).getD 5 0 = mt := by rw [hs]; rfl
  have hsq : sq % 4294967296 = sq := Nat.mod_eq_of_lt (by norm_num at hw3 ⊢; omega)
  have hblm : body.length % 4294967296 = body.length :=
    Nat.mod_eq_of_lt (by norm_num at hw4 ⊢; omega)
  have gseq : getBe32 ((Encode ⟨ct, mt, sq, body.length⟩ body ++ rest).getD 6 0)
      ((Encode ⟨ct, mt, sq, body.length⟩ body ++ rest).getD 7 0)
      ((Encode ⟨ct, mt, sq, body.length⟩ body ++ rest).getD 8 0)
      ((Encode ⟨ct, mt, sq, body.length⟩ body ++ rest).getD 9 0) = sq := by
    have e6 : (Encode ⟨ct, mt, sq, body.length⟩ body ++ rest).getD 6 0 = sq / 2 ^ 24 % 256 := by
      rw [hs]; rfl
    have e7 : (Encode ⟨ct, mt, sq, body.length⟩ body ++ rest).getD 7 0 = sq / 2 ^ 16 % 256 := by
      rw [hs]; rfl
    have e8 : (Encode ⟨ct, mt, sq, body.length⟩ body ++ rest).getD 8 0 = sq / 256 % 256 := by
      rw [hs]; rfl
    have e9 : (Encode ⟨ct, mt, sq, body.length⟩ body ++ rest).getD 9 0 = sq % 256 := by
      rw [hs]; rfl
    rw [e6, e7, e8, e9, getBe32_be32, hsq]
  have gbl : getBe32 ((Encode ⟨ct, mt, sq, body.length⟩ body ++ rest).getD 10 0)
      ((Encode ⟨ct, mt, sq, body.length⟩ body ++ rest).getD 11 0)
      ((Encode ⟨ct, mt, sq, body.length⟩ body ++ rest).getD 12 0)
      ((Encode ⟨ct, mt, sq, body.length⟩ body ++ rest).getD 13 0) = body.length := by
    have e10 : (Encode ⟨ct, mt, sq, body.length⟩ body ++ rest).getD 10 0
        = body.length / 2 ^ 24 % 256 := by rw [hs]; rfl
    have e11 : (Encode ⟨ct, mt, sq, body.length⟩ body ++ rest).getD 11 0
        = body.length / 2 ^ 16 % 256 := by rw [hs]; rfl
    have e12 : (Encode ⟨ct, mt, sq, body.length⟩ body ++ rest).getD 12 0
        = body.length / 256 % 256 := by rw [hs]; rfl
    have e13 : (Encode ⟨ct, mt, sq, body.length⟩ body ++ rest).getD 13 0
        = body.length % 256 := by rw [hs]; rfl
    rw [e10, e11, e12, e13, getBe32_be32, hblm]
  have gdrop : (Encode ⟨ct, mt, sq, body.length⟩ body ++ rest).drop 14 = body ++ rest := by
    rw [hs]; rfl
  simp only [Decode]
  rw [hlen]
  rw [if_neg (by omega), if_neg (by omega)]
  rw [g0, g1, g2, g3, g4, g5, gseq, gbl, gdrop]
  rw [if_neg (by norm_num)]
  rw [if_neg (by norm_num)]
  rw [if_neg (by omega)]
  rw [if_neg (by omega)]
  rw [if_neg (by rw [List.length_append]; omega)]
  rw [List.take_left, List.drop_left]

/-- `protocol.Decode` fails exactly on the streams that do not start with a
well-formed frame. -/
theorem decode_error_iff (s : List Nat) :
    (∃ e, Decode s = .error e) ↔ ¬ WellFormedFrame s := by
  have hdl : (s.drop 14).length = s.length - 14 := List.length_drop 14 s
  by_cases p1 : s.length = 0
  · have hD : Decode s = .error .eof := by
      simp only [Decode]
      rw [if_pos p1]
    refine ⟨fun _ wf => ?_, fun _ => ⟨_, hD⟩⟩
    have := wf.2.2.2.2.2.2
    omega
  · by_cases p2 : s.length < 14
    · have hD : Decode s = .error .unexpectedEOF := by
        simp only [Decode]
        rw [if_neg p1, if_pos p2]
      refine ⟨fun _ wf => ?_, fun _ => ⟨_, hD⟩⟩
      have := wf.2.2.2.2.2.2
      omega
    · by_cases pm : s.getD 0 0 = 0x6d ∧ s.getD 1 0 = 0x72 ∧ s.getD 2 0 = 0x70
      · by_cases pv : s.getD 3 0 = 0x01
        · by_cases pc : s.getD 4 0 < 2
          · by_cases pt : s.getD 5 0 < 3
            · by_cases pb : 14 + getBe32 (s.getD 10 0) (s.getD 11 0) (s.getD 12 0)
                  (s.getD 13 0) ≤ s.length
              · have hD : Decode s = .ok (⟨s.getD 4 0, s.getD 5 0,
                    getBe32 (s.getD 6 0) (s.getD 7 0) (s.getD 8 0) (s.getD 9 0),
                    getBe32 (s.getD 10 0) (s.getD 11 0) (s.getD 12 0) (s.getD 13 0)⟩,
                    (s.drop 14).take (getBe32 (s.getD 10 0) (s.getD 11 0) (s.getD 12 0)
                      (s.getD 13 0)),
                    (s.drop 14).drop (getBe32 (s.getD 10 0) (s.getD 11 0) (s.getD 12 0)
                      (s.getD 13 0))) := by
                  simp only [Decode]
                  rw [if_neg p1, if_neg p2, if_neg (not_not_intro pm), if_neg (not_not_intro pv),
                    if_neg (by omega), if_neg (by omega), if_neg (by omega)]
                constructor
                · rintro ⟨e, he⟩
                  rw [hD] at he
                  simp at he
                · intro hn
                  exact absurd ⟨pm.1, pm.2.1, pm.2.2, pv, pc, pt, pb⟩ hn
              · have hD : Decode s = .error (if (s.drop 14).length = 0 then .eof
                    else .unexpectedEOF) := by
                  simp only [Decode]
                  rw [if_neg p1, if_neg p2, if_neg (not_not_intro pm), if_neg (not_not_intro pv),
                    if_neg (by omega), if_neg (by omega), if_pos (by omega)]
                refine ⟨fun _ wf => ?_, fun _ => ⟨_, hD⟩⟩
                exact pb wf.2.2.2.2.2.2
            · have hD : Decode s = .error (.unsupportedMsgType (s.getD 5 0)) := by
                simp only [Decode]
                rw [if_neg p1, if_neg p2, if_neg (not_not_intro pm), if_neg (not_not_intro pv),
                  if_neg (by omega), if_pos (by omega)]
              refine ⟨fun _ wf => ?_, fun _ => ⟨_, hD⟩⟩
              have := wf.2.2.2.2.2.1
              omega
          · have hD : Decode s = .error (.unsupportedCodecType (s.getD 4 0)) := by
              simp only [Decode]
              rw [if_neg p1, if_neg p2, if_neg (not_not_intro pm), if_neg (not_not_intro pv),
                if_pos (by omega)]
            refine ⟨fun _ wf => ?_, fun _ => ⟨_, hD⟩⟩
            have := wf.2.2.2.2.1
            omega
        · have hD : Decode s = .error (.unsupportedVersion (s.getD 3 0)) := by
            simp only [Decode]
            rw [if_neg p1, if_neg p2, if_neg (not_not_intro pm), if_pos pv]
          refine ⟨fun _ wf => ?_, fun _ => ⟨_, hD⟩⟩
          exact pv wf.2.2.2.1
      · have hD : Decode s = .error (.invalidMagic (s.getD 0 0) (s.getD 1 0) (s.getD 2 0)) := by
          simp only [Decode]
          rw [if_neg p1, if_neg p2, if_pos pm]
        refine ⟨fun _ wf => ?_, fun _ => ⟨_, hD⟩⟩
        exact pm ⟨wf.1, wf.2.1, wf.2.2.1⟩

/-- On a stream long enough to read a header, a wrong magic yields the
`invalid magic number` error. -/
theorem decode_error_magic (s : List Nat) (h14 : 14 ≤ s.length)
    (hmag : ¬(s.getD 0 0 = 0x6d ∧ s.getD 1 0 = 0x72 ∧ s.getD 2 0 = 0x70)) :
    ∃ e, Decode s = .error e ∧ listContains (asciiBytes "invalid magic") e.msg = true := by
  refine ⟨.invalidMagic (s.getD 0 0) (s.getD 1 0) (s.getD 2 0), ?_, ?_⟩
  · simp only [Decode]
    rw [if_neg (by omega), if_neg (by omega), if_pos hmag]
  · show listContains _ (asciiBytes "invalid magic number: " ++ _ ++ _ ++ _) = true
    simp only [List.append_assoc]
    exact listContains_prefix_append _ _ _ rfl

/-- On a stream long enough to read a header, a correct magic followed by a
wrong version yields the `unsupported version` error. -/
theorem decode_error_version (s : List Nat) (h14 : 14 ≤ s.length)
    (hmag : s.getD 0 0 = 0x6d ∧ s.getD 1 0 = 0x72 ∧ s.getD 2 0 = 0x70)
    (hv : s.getD 3 0 ≠ 0x01) :
    ∃ e, Decode s = .error e ∧
      listContains (asciiBytes "unsupported version") e.msg = true := by
  refine ⟨.unsupportedVersion (s.getD 3 0), ?_, ?_⟩
  · simp only [Decode]
    rw [if_neg (by omega), if_neg (by omega), if_neg (by simpa using hmag), if_pos hv]
  · show listContains _ (asciiBytes "unsupported version: " ++ _) = true
    exact listContains_prefix_append _ _ _ rfl

end Protocol

/-! ## Lemmas: server -/

namespace BinaryCodec

theorem encode_length (m : RPCMessage) :
    (Encode m).length
      = 2 + m.ServiceMethod.length + 4 + m.Payload.length + 2 + m.Error.length := by
  simp only [Encode, be16, be32, List.length_append, List.length_cons, List.length_nil]

end BinaryCodec

namespace Server

/-- Whenever `handleRequest` writes a frame, that frame echoes the
request's seq and codec type, carries `MsgType` Response, and its
`BodyLen` is the encoded response length reduced `mod 2^32` by Go's
`uint32(len(result))` conversion; the body is the codec encoding of the
handler-chain output. -/
theorem handleRequest_response_fields (handler : RPCMessage → Option RPCMessage)
    (header : Header) (body : List Nat) (h' : Header) (b' : List Nat)
    (hreq : handleRequest handler header body = some (h', b')) :
    h'.CodecType = header.CodecType ∧ h'.MsgType = 1 ∧ h'.Seq = header.Seq ∧
    h'.BodyLen = b'.length % 2 ^ 32 ∧
    ∃ msg resp, codecDecodeInto header.CodecType body = some msg ∧ handler msg = some resp ∧
      b' = codecEncode header.CodecType resp := by
  unfold handleRequest at hreq
  cases hd : codecDecodeInto header.CodecType body with
  | none =>
    simp [hd] at hreq
  | some msg =>
    simp only [hd] at hreq
    cases hh : handler msg with
    | none =>
      simp [hh] at hreq
    | some resp =>
      simp only [hh, Option.some.injEq, Prod.mk.injEq] at hreq
      obtain ⟨hh', hb'⟩ := hreq
      subst hh'
      subst hb'
      exact ⟨rfl, rfl, rfl, rfl, msg, resp, rfl, hh, rfl⟩

end Server

/-! ## Lemmas: client transport `Send` -/

theorem lookupAssoc_none_filter (l : List (Nat × Nat)) (k : Nat)
    (h : lookupAssoc l k = none) : (l.filter fun p => p.1 != k) = l := by
  rw [List.filter_eq_self]
  intro p hp
  simp only [lookupAssoc, Option.map_eq_none', List.find?_eq_none] at h
  simpa using h p hp

theorem eraseAssoc_storeAssoc (l : List (Nat × Nat)) (k v : Nat)
    (h : lookupAssoc l k = none) : eraseAssoc (storeAssoc l k v) k = l := by
  unfold storeAssoc eraseAssoc
  rw [h]
  simp only [Option.isSome_none, Bool.false_eq_true, if_false, List.filter_append]
  rw [lookupAssoc_none_filter l k h]
  simp

namespace ClientTransport

/-- The pending-table insert happens strictly before the frame write in
`Send`'s event order, whether or not the write succeeds. -/
theorem Send_store_before_write (t : ClientTransport) (sm p : List Nat) (wOk : Bool) :
    ((Send t sm (some p) wOk).2.2.findIdx SendEvent.isStore)
      < ((Send t sm (some p) wOk).2.2.findIdx SendEvent.isWrite) := by
  cases wOk <;>
    simp [Send, List.findIdx, List.findIdx.go, SendEvent.isStore, SendEvent.isWrite]

/-- When the frame write fails, `Send` deletes the entry it inserted
before returning: the overall pending table is unchanged, the result is
the error return, and the delete is the final step. -/
theorem Send_write_failure_rollback (t : ClientTransport) (sm p : List Nat)
    (hfresh : lookupAssoc t.pending ((t.seq + 1) % 2 ^ 32) = none) :
    (Send t sm (some p) false).1.pending = t.pending ∧
    (Send t sm (some p) false).2.1 = none ∧
    (Send t sm (some p) false).2.2.getLast? = some (.pendingDelete ((t.seq + 1) % 2 ^ 32)) := by
  refine ⟨?_, rfl, rfl⟩
  show eraseAssoc (storeAssoc t.pending ((t.seq + 1) % 2 ^ 32) t.nextSlot)
      ((t.seq + 1) % 2 ^ 32) = t.pending
  exact eraseAssoc_storeAssoc _ _ _ hfresh

/-- Each `Send` issues `seq = (prev + 1) mod 2^32` (strictly larger than
the previous value until the counter wraps) and stores it as the new
counter value, in every outcome. -/
theorem Send_seq_increment (t : ClientTransport) (sm : List Nat)
    (argsPayload : Option (List Nat)) (wOk : Bool) :
    (Send t sm argsPayload wOk).1.seq = (t.seq + 1) % 2 ^ 32 ∧
    ((Send t sm argsPayload wOk).2.1 = none ∨
      ∃ slot, (Send t sm argsPayload wOk).2.1 = some ((t.seq + 1) % 2 ^ 32, slot)) ∧
    (t.seq + 1 < 2 ^ 32 → t.seq < (t.seq + 1) % 2 ^ 32) := by
  refine ⟨?_, ?_, ?_⟩
  · cases argsPayload <;> cases wOk <;> rfl
  · cases argsPayload with
    | none => exact Or.inl rfl
    | some payload =>
      cases wOk with
      | false => exact Or.inl rfl
      | true => exact Or.inr ⟨t.nextSlot, rfl⟩
  · intro hlt
    rw [Nat.mod_eq_of_lt hlt]
    omega

theorem NodupKeys_storeAssoc (l : List (Nat × Nat)) (k v : Nat) (h : NodupKeys l) :
    NodupKeys (storeAssoc l k v) := by
  unfold storeAssoc
  by_cases hk : (lookupAssoc l k).isSome
  · rw [if_pos hk]
    unfold NodupKeys at h ⊢
    have hmap : ((l.map fun p => if p.1 == k then (k, v) else p).map Prod.fst)
        = l.map Prod.fst := by
      rw [List.map_map]
      apply List.map_congr_left
      intro p _
      by_cases hpk : p.1 = k
      · simp [hpk]
      · simp [hpk]
    rw [hmap]
    exact h
  · rw [if_neg hk]
    have hnone : lookupAssoc l k = none := by
      cases hcase : lookupAssoc l k
      · rfl
      · rw [hcase] at hk
        simp at hk
    unfold NodupKeys at h ⊢
    rw [List.map_append, List.nodup_append]
    refine ⟨h, by simp, ?_⟩
    intro a ha hak
    simp only [List.map_cons, List.map_nil, List.mem_singleton] at hak
    subst hak
    obtain ⟨p, hp, hpk⟩ := List.mem_map.mp ha
    unfold lookupAssoc at hnone
    rw [Option.map_eq_none'] at hnone
    rw [List.find?_eq_none] at hnone
    have hcontra := hnone p hp
    simp [hpk] at hcontra

theorem NodupKeys_eraseAssoc (l : List (Nat × Nat)) (k : Nat) (h : NodupKeys l) :
    NodupKeys (eraseAssoc l k) := by
  unfold NodupKeys at h ⊢
  unfold eraseAssoc
  exact List.Nodup.sublist ((List.filter_sublist l).map Prod.fst) h

end ClientTransport

/-! ## Lemmas: retry middleware -/

namespace RetryMiddleware

theorem loop_spec (next : Nat → RPCMessage) (base : Int) :
    ∀ rem i, ∃ j, j ≤ rem ∧
      (loop next base (next i) i rem).1 = next (i + j) ∧
      (loop next base (next i) i rem).2
        = (List.range j).map (fun t => durMul base (goShl1 (i + t))) ∧
      (∀ t, t < j → (next (i + t)).Error ≠ [] ∧ retryable (next (i + t)).Error = true) ∧
      (j < rem → (next (i + j)).Error = [] ∨ retryable (next (i + j)).Error = false) := by
  intro rem
  induction rem with
  | zero =>
    intro i
    refine ⟨0, Nat.le_refl 0, by simp [loop], by simp [loop], ?_, ?_⟩
    · intro t ht
      exact absurd ht (Nat.not_lt_zero t)
    · intro hh
      exact absurd hh (Nat.lt_irrefl 0)
  | succ rem ih =>
    intro i
    by_cases he : (next i).Error = []
    · refine ⟨0, Nat.zero_le _, ?_, ?_, ?_, ?_⟩
      · simp [loop, he]
      · simp [loop, he]
      · intro t ht
        exact absurd ht (Nat.not_lt_zero t)
      · intro _
        rw [Nat.add_zero]
        exact Or.inl he
    · by_cases hr : retryable (next i).Error = true
      · obtain ⟨j, hj, h2, h3, h4, h5⟩ := ih (i + 1)
        refine ⟨j + 1, by omega, ?_, ?_, ?_, ?_⟩
        · simp only [loop, if_neg he, if_pos hr]
          rw [h2]
          congr 1
          omega
        · simp only [loop, if_neg he, if_pos hr]
          rw [h3, List.range_succ_eq_map, List.map_cons, List.map_map]
          congr 1
          apply List.map_congr_left
          intro t _
          simp only [Function.comp_apply]
          rw [show i + 1 + t = i + (t + 1) by omega]
        · intro t ht
          cases t with
          | zero =>
            rw [Nat.add_zero]
            exact ⟨he, hr⟩
          | succ t' =>
            have := h4 t' (by omega)
            rwa [show i + 1 + t' = i + (t' + 1) by omega] at this
        · intro hh
          have := h5 (by omega)
          rwa [show i + 1 + j = i + (j + 1) by omega] at this
      · refine ⟨0, Nat.zero_le _, ?_, ?_, ?_, ?_⟩
        · simp [loop, he, hr]
        · simp [loop, he, hr]
        · intro t ht
          exact absurd ht (Nat.not_lt_zero t)
        · intro _
          rw [Nat.add_zero]
          exact Or.inr (by simpa using hr)

/-- The result of the retry loop is the first non-retryable or successful
downstream result (or the last one after `n` retries), and the recorded
sleep arguments are `baseDelay * 2^i` in wrapped `int64` arithmetic. -/
theorem run_spec (next : Nat → RPCMessage) (n : Nat) (base : Int) :
    ∃ j, j ≤ n ∧ (run next n base).1 = next j ∧
      (run next n base).2 = (List.range j).map (fun t => durMul base (goShl1 t)) ∧
      (∀ t, t < j → (next t).Error ≠ [] ∧ retryable (next t).Error = true) ∧
      (j < n → (next j).Error = [] ∨ retryable (next j).Error = false) := by
  obtain ⟨j, h1, h2, h3, h4, h5⟩ := loop_spec next base n 0
  refine ⟨j, h1, by simpa using h2, by simpa using h3, ?_, ?_⟩
  · intro t ht
    simpa using h4 t ht
  · intro hh
    simpa using h5 hh

/-- When the first downstream result is a success or a non-retryable
error, the middleware returns it unchanged without sleeping. -/
theorem run_immediate (next : Nat → RPCMessage) (n : Nat) (base : Int)
    (h : (next 0).Error = [] ∨ retryable (next 0).Error = false) :
    run next n base = (next 0, []) := by
  cases n with
  | zero => rfl
  | succ m =>
    show loop next base (next 0) 0 (m + 1) = (next 0, [])
    rcases h with h | h
    · simp only [loop, if_pos h]
    · by_cases he : (next 0).Error = []
      · simp only [loop, if_pos he]
      · simp only [loop, if_neg he]
        rw [if_neg]
        rw [h]
        simp

end RetryMiddleware

/-! ## Lemmas: client reader loop -/

namespace Protocol

/-- A successfully decoded frame consumes at least the 14-byte header. -/
theorem decode_ok_rest (s : List Nat) (h : Header) (b r : List Nat)
    (hdec : Decode s = .ok (h, b, r)) : r.length + 14 ≤ s.length := by
  simp only [Decode] at hdec
  split_ifs at hdec with p1 p2 p3 p4 p5 p6 p7
  simp only [Except.ok.injEq, Prod.mk.injEq] at hdec
  obtain ⟨-, -, hr⟩ := hdec
  subst hr
  rw [List.length_drop, List.length_drop]
  omega

end Protocol

theorem lookupAssoc_cons_hit (k v : Nat) (t : List (Nat × Nat)) :
    lookupAssoc ((k, v) :: t) k = some v := by
  simp [lookupAssoc, List.find?]

theorem lookupAssoc_cons_miss (k' v' k : Nat) (t : List (Nat × Nat)) (h : k' ≠ k) :
    lookupAssoc ((k', v') :: t) k = lookupAssoc t k := by
  unfold lookupAssoc
  rw [List.find?_cons_of_neg _ (by simpa using h)]

theorem lookupAssoc_none_of_not_mem_keys (l : List (Nat × Nat)) (k : Nat)
    (h : k ∉ l.map Prod.fst) : lookupAssoc l k = none := by
  unfold lookupAssoc
  rw [Option.map_eq_none', List.find?_eq_none]
  intro p hp
  simp only [beq_iff_eq]
  intro hpk
  exact h (List.mem_map.mpr ⟨p, hp, hpk⟩)

/-- Removing the entry a successful lookup found returns the rest of the
pending slots: the slot multiset is preserved. -/
theorem perm_snd_eraseAssoc (l : List (Nat × Nat)) (k v : Nat) (hN : NodupKeys l)
    (hlk : lookupAssoc l k = some v) :
    (v :: (eraseAssoc l k).map Prod.snd).Perm (l.map Prod.snd) := by
  induction l with
  | nil => simp [lookupAssoc] at hlk
  | cons p t ih =>
    obtain ⟨k', v'⟩ := p
    have h2 : (k' :: t.map Prod.fst).Nodup := hN
    by_cases hk : k' = k
    · subst hk
      rw [lookupAssoc_cons_hit] at hlk
      have hv : v' = v := by simpa using hlk
      have hnk : k' ∉ t.map Prod.fst := (List.nodup_cons.mp h2).1
      have ht : eraseAssoc ((k', v') :: t) k' = t := by
        unfold eraseAssoc
        simp only [List.filter_cons, bne_self_eq_false, Bool.false_eq_true, if_false]
        exact lookupAssoc_none_filter t k' (lookupAssoc_none_of_not_mem_keys t k' hnk)
      rw [List.map_cons, ht, hv]
    · rw [lookupAssoc_cons_miss _ _ _ _ hk] at hlk
      have hN' : NodupKeys t := (List.nodup_cons.mp h2).2
      have hperm := ih hN' hlk
      have he : eraseAssoc ((k', v') :: t) k = (k', v') :: eraseAssoc t k := by
        unfold eraseAssoc
        simp only [List.filter_cons]
        rw [if_pos (by simpa using hk)]
      rw [he]
      simp only [List.map_cons]
      exact (List.Perm.swap v' v ((eraseAssoc t k).map Prod.snd)).trans (hperm.cons v')

namespace ClientTransport

/-- On a stream whose frames all codec-decode without panic, the reader
loop terminates cleanly: the pending table is cleared, and the multiset
of slots that receive a delivery is exactly the multiset of pending
slots — every pending entry receives exactly one envelope (its response
or the terminal synthetic error) and nothing else receives any. -/
theorem recvLoop_deliveries : ∀ (fuel : Nat) (stream : List Nat) (pending : List (Nat × Nat)),
    streamOk fuel stream = true → NodupKeys pending →
    ∃ ds, recvLoop fuel stream pending = some (ds, []) ∧
      (ds.map Prod.fst).Perm (pending.map Prod.snd) := by
  intro fuel
  induction fuel with
  | zero =>
    intro stream pending hok _
    simp [streamOk] at hok
  | succ fuel ih =>
    intro stream pending hok hN
    cases hdec : Protocol.Decode stream with
    | error e =>
      refine ⟨pending.map fun p => (p.2, syntheticEnvelope e.msg), ?_, ?_⟩
      · simp only [recvLoop, hdec]
      · rw [List.map_map]
        exact List.Perm.refl _
    | ok v =>
      obtain ⟨h, b, rest⟩ := v
      simp only [streamOk, hdec, Bool.and_eq_true] at hok
      obtain ⟨hcd', hrest⟩ := hok
      obtain ⟨msg, hcd⟩ := Option.isSome_iff_exists.mp hcd'
      cases hlk : lookupAssoc pending h.Seq with
      | some slot =>
        obtain ⟨ds', hds', hperm⟩ := ih rest (eraseAssoc pending h.Seq) hrest
          (NodupKeys_eraseAssoc pending h.Seq hN)
        refine ⟨(slot, msg) :: ds', ?_, ?_⟩
        · simp only [recvLoop, hdec, hcd, hlk, hds']
        · simp only [List.map_cons]
          exact (hperm.cons slot).trans (perm_snd_eraseAssoc pending h.Seq slot hN hlk)
      | none =>
        obtain ⟨ds', hds', hperm⟩ := ih rest pending hrest hN
        refine ⟨ds', ?_, hperm⟩
        simp only [recvLoop, hdec, hcd, hlk, hds']

theorem countDeliveries_eq_count (ds : List (Nat × RPCMessage)) (slot : Nat) :
    countDeliveries ds slot = (ds.map Prod.fst).count slot := by
  unfold countDeliveries
  rw [List.count, List.countP_map, List.countP_eq_length_filter]
  rfl

theorem count_nodup_mem (l : List Nat) (a : Nat) (h : l.Nodup) :
    l.count a = if a ∈ l then 1 else 0 := by
  by_cases hm : a ∈ l
  · rw [if_pos hm]
    exact List.count_eq_one_of_mem h hm
  · rw [if_neg hm]
    exact List.count_eq_zero_of_not_mem hm

/-- One loop iteration on a frame decode error: every remaining pending
entry receives one synthetic envelope carrying the connection error's
message, the table is cleared, and the loop exits. -/
theorem recvLoopRun_error (stream : List Nat) (pending : List (Nat × Nat))
    (e : Protocol.FrameError) (hdec : Protocol.Decode stream = .error e) :
    recvLoopRun stream pending
      = some (pending.map fun p => (p.2, syntheticEnvelope e.msg), []) := by
  unfold recvLoopRun
  simp only [recvLoop, hdec]

end ClientTransport

/-! ## The claims -/

/-- C1: the specification says a malformed `serviceMethod`, unknown
service, unknown method, or payload deserialisation failure all produce
a non-empty error string and never crash the dispatcher.  The code
checks neither map lookup: on any request whose method string splits
into exactly two parts but names a service absent from the service map,
`businessHandler` dereferences the nil service pointer — the `none`
(panic) branch of the embedding — instead of returning an error
envelope. -/
theorem claim_C1 (serviceMap : List (List Nat × ServiceEntry)) (req : RPCMessage)
    (hsplit : (splitDot req.ServiceMethod).length = 2)
    (hmiss : Server.mapLookup serviceMap ((splitDot req.ServiceMethod).getD 0 []) = none) :
    Server.businessHandler serviceMap req = none := by
  simp only [Server.businessHandler]
  rw [if_neg (by omega)]
  simp only [hmiss]

/-- Witness: the dispatcher panic reached at a concrete request naming an
unknown service on an empty service map. -/
theorem claim_C1_witness :
    Server.businessHandler [] ⟨asciiBytes "NoSuch.Method", [], []⟩ = none :=
  claim_C1 [] ⟨asciiBytes "NoSuch.Method", [], []⟩ (by decide) rfl

/-- C2 (amended): both codecs round-trip every envelope within their
representable ranges — the binary codec whenever the two string fields
fit the `uint16` length prefixes and the payload fits the `uint32`
prefix, the JSON codec whenever the string fields are valid UTF-8 and
the payload is a byte string. -/
theorem claim_C2 (m : RPCMessage) :
    (m.ServiceMethod.length < 65536 → m.Error.length < 65536 →
      m.Payload.length < 4294967296 →
      BinaryCodec.Decode (BinaryCodec.Encode m) = some m) ∧
    (Utf8Valid m.ServiceMethod → Utf8Valid m.Error → (∀ x ∈ m.Payload, x < 256) →
      JSONCodec.Decode (JSONCodec.Encode m) = (m, true)) :=
  ⟨fun h1 h2 h3 => BinaryCodec.decode_encode m h1 h2 h3,
   fun h1 h2 h3 => GoJson.Unmarshal_Marshal m h1 h2 h3⟩

/-- Witness: both round-trips at a concrete envelope with an ASCII
method, empty error and a two-byte payload. -/
theorem claim_C2_witness :
    BinaryCodec.Decode (BinaryCodec.Encode ⟨[65], [], [0, 255]⟩) = some ⟨[65], [], [0, 255]⟩ ∧
    JSONCodec.Decode (JSONCodec.Encode ⟨[65], [], [0, 255]⟩) = (⟨[65], [], [0, 255]⟩, true) :=
  ⟨(claim_C2 ⟨[65], [], [0, 255]⟩).1 (by decide) (by decide) (by decide),
   (claim_C2 ⟨[65], [], [0, 255]⟩).2
     (Utf8Valid.app 65 [] (Or.inl (by norm_num)) Utf8Valid.nil)
     Utf8Valid.nil (by decide)⟩

/-- Counterexample to C2 as stated: a 65536-byte method string overflows
the binary codec's `uint16` length prefix and decoding its own encoding
panics; and a method string that is not valid UTF-8 (the lone byte 255)
is coerced to U+FFFD by `json.Marshal`, so the JSON round-trip returns a
different envelope. -/
theorem claim_C2_counterexample :
    BinaryCodec.Decode (BinaryCodec.Encode ⟨List.replicate 65536 97, [], []⟩) = none ∧
    (JSONCodec.Decode (JSONCodec.Encode ⟨[255], [], []⟩)).1 ≠ ⟨[255], [], []⟩ :=
  ⟨BinaryCodec.decode_encode_overflow, by decide⟩

/-- C3: framer decode inverts framer encode on every valid header/body
pair, and the encoded frame is exactly `14 + len(body)` bytes. -/
theorem claim_C3 (h : Header) (body : List Nat) (hwf : h.WF) (hct : h.CodecType < 2)
    (hmt : h.MsgType < 3) (hbl : h.BodyLen = body.length) :
    Protocol.Decode (Protocol.Encode h body) = .ok (h, body, []) ∧
    (Protocol.Encode h body).length = 14 + body.length := by
  refine ⟨?_, Protocol.encode_frame_length h body⟩
  have := Protocol.decode_encode_frame h body [] hwf hct hmt hbl
  simpa using this

/-- Witness: the framer round-trip at a concrete one-byte-body frame. -/
theorem claim_C3_witness :
    Protocol.Decode (Protocol.Encode ⟨0, 0, 5, 1⟩ [7]) = .ok (⟨0, 0, 5, 1⟩, [7], []) ∧
    (Protocol.Encode ⟨0, 0, 5, 1⟩ [7]).length = 14 + ([7] : List Nat).length :=
  claim_C3 ⟨0, 0, 5, 1⟩ [7] (by decide) (by decide) (by decide) (by decide)

/-- C4 (amended): provided the new seq value is not already a pending
key (true until the `uint32` counter wraps around onto a still-live
request), `Send` registers the response slot before the frame write in
its event order, and on write failure deletes that entry before
returning the error, leaving the pending table unchanged. -/
theorem claim_C4 (t : ClientTransport) (sm p : List Nat)
    (hfresh : lookupAssoc t.pending ((t.seq + 1) % 2 ^ 32) = none) :
    (∀ wOk, ((ClientTransport.Send t sm (some p) wOk).2.2.findIdx SendEvent.isStore)
        < ((ClientTransport.Send t sm (some p) wOk).2.2.findIdx SendEvent.isWrite)) ∧
    (ClientTransport.Send t sm (some p) false).1.pending = t.pending ∧
    (ClientTransport.Send t sm (some p) false).2.1 = none ∧
    (ClientTransport.Send t sm (some p) false).2.2.getLast?
      = some (.pendingDelete ((t.seq + 1) % 2 ^ 32)) := by
  obtain ⟨h1, h2, h3⟩ := ClientTransport.Send_write_failure_rollback t sm p hfresh
  exact ⟨fun wOk => ClientTransport.Send_store_before_write t sm p wOk, h1, h2, h3⟩

/-- Witness: the store-before-write order and the failure rollback at a
fresh transport. -/
theorem claim_C4_witness :
    (∀ wOk, ((ClientTransport.Send ⟨0, 0, [], 0⟩ [65] (some []) wOk).2.2.findIdx
        SendEvent.isStore)
        < ((ClientTransport.Send ⟨0, 0, [], 0⟩ [65] (some []) wOk).2.2.findIdx
          SendEvent.isWrite)) ∧
    (ClientTransport.Send ⟨0, 0, [], 0⟩ [65] (some []) false).1.pending = [] ∧
    (ClientTransport.Send ⟨0, 0, [], 0⟩ [65] (some []) false).2.1 = none ∧
    (ClientTransport.Send ⟨0, 0, [], 0⟩ [65] (some []) false).2.2.getLast?
      = some (.pendingDelete 1) :=
  claim_C4 ⟨0, 0, [], 0⟩ [65] [] rfl

/-- Counterexample to C4 as stated: when the counter wraps onto a key
that is still pending, the insert replaces the live entry and the
failure rollback then deletes it, so the table is not left unchanged. -/
theorem claim_C4_counterexample :
    (ClientTransport.Send ⟨1, 2 ^ 32 - 1, [(0, 7)], 8⟩ [65] (some []) false).1.pending
      ≠ [(0, 7)] := by decide

/-- C5 (amended): on a stream every one of whose frame bodies its codec
accepts (`streamOkRun` — ruled out otherwise by the binary codec's
decode panic, see the counterexample), the reader loop terminates with
the pending table cleared and delivers exactly one envelope to every
pending slot and none elsewhere — matched responses to their seq's slot,
unmatched frames dropped — and on the terminal decode error every
remaining entry receives the synthetic envelope carrying the error's
message. -/
theorem claim_C5 (stream : List Nat) (pending : List (Nat × Nat))
    (hok : ClientTransport.streamOkRun stream = true) (hN : NodupKeys pending)
    (hS : (pending.map Prod.snd).Nodup) :
    (∃ ds, ClientTransport.recvLoopRun stream pending = some (ds, []) ∧
      ∀ slot, ClientTransport.countDeliveries ds slot
        = if slot ∈ pending.map Prod.snd then 1 else 0) ∧
    (∀ e, Protocol.Decode stream = .error e →
      ClientTransport.recvLoopRun stream pending
        = some (pending.map fun q => (q.2, ClientTransport.syntheticEnvelope e.msg), [])) := by
  constructor
  · obtain ⟨ds, hds, hperm⟩ :=
      ClientTransport.recvLoop_deliveries (stream.length + 1) stream pending hok hN
    refine ⟨ds, hds, fun slot => ?_⟩
    rw [ClientTransport.countDeliveries_eq_count, hperm.count_eq,
      ClientTransport.count_nodup_mem _ _ hS]
  · intro e he
    exact ClientTransport.recvLoopRun_error stream pending e he

/-- Witness: the reader loop on an immediately-closed connection with one
pending entry — the entry receives exactly one synthetic envelope. -/
theorem claim_C5_witness :
    (∃ ds, ClientTransport.recvLoopRun [] [(5, 100)] = some (ds, []) ∧
      ∀ slot, ClientTransport.countDeliveries ds slot
        = if slot ∈ ([(5, 100)] : List (Nat × Nat)).map Prod.snd then 1 else 0) ∧
    (∀ e, Protocol.Decode [] = .error e →
      ClientTransport.recvLoopRun [] [(5, 100)]
        = some (([(5, 100)] : List (Nat × Nat)).map
            fun q => (q.2, ClientTransport.syntheticEnvelope e.msg), [])) :=
  claim_C5 [] [(5, 100)] (by decide) (by unfold NodupKeys; decide) (by decide)

/-- Counterexample to C5 as stated: a well-framed binary-codec response
whose one-byte body the binary codec cannot decode makes the reader loop
panic (`none`) — the ignored `codec.Decode` error leads to a nil
dereference — instead of delivering or dropping anything. -/
theorem claim_C5_counterexample :
    ClientTransport.recvLoopRun (Protocol.Encode ⟨1, 1, 5, 1⟩ [0]) [(5, 100)] = none := by
  decide

/-- C6 (amended): each `Send` issues `seq = (prev + 1) mod 2^32` —
strictly increasing only until the counter wraps — and key-uniqueness of
the pending table is preserved by `sync.Map.Store`'s replacement
semantics, not by any existence check (the code performs none; see the
counterexample for the silent replacement on wrap-around). -/
theorem claim_C6 (t : ClientTransport) (sm : List Nat) (argsPayload : Option (List Nat))
    (wOk : Bool) :
    (ClientTransport.Send t sm argsPayload wOk).1.seq = (t.seq + 1) % 2 ^ 32 ∧
    ((ClientTransport.Send t sm argsPayload wOk).2.1 = none ∨
      ∃ slot, (ClientTransport.Send t sm argsPayload wOk).2.1
        = some ((t.seq + 1) % 2 ^ 32, slot)) ∧
    (t.seq + 1 < 2 ^ 32 → t.seq < (ClientTransport.Send t sm argsPayload wOk).1.seq) ∧
    (NodupKeys t.pending → NodupKeys (ClientTransport.Send t sm argsPayload wOk).1.pending) := by
  obtain ⟨h1, h2, h3⟩ := ClientTransport.Send_seq_increment t sm argsPayload wOk
  refine ⟨h1, h2, fun hlt => ?_, fun hN => ?_⟩
  · rw [h1]
    exact h3 hlt
  · cases argsPayload with
    | none => exact hN
    | some payload =>
      cases wOk with
      | true => exact ClientTransport.NodupKeys_storeAssoc _ _ _ hN
      | false =>
        exact ClientTransport.NodupKeys_eraseAssoc _ _
          (ClientTransport.NodupKeys_storeAssoc _ _ _ hN)

/-- Witness: a mid-lifetime `Send` issues a strictly larger seq and keeps
the pending keys unique. -/
theorem claim_C6_witness :
    5 < (ClientTransport.Send ⟨1, 5, [], 0⟩ [65] (some []) true).1.seq ∧
    NodupKeys (ClientTransport.Send ⟨1, 5, [], 0⟩ [65] (some []) true).1.pending :=
  ⟨by
    have h := (claim_C6 ⟨1, 5, [], 0⟩ [65] (some []) true).2.2.1 (by norm_num)
    exact h,
   (claim_C6 ⟨1, 5, [], 0⟩ [65] (some []) true).2.2.2 (by unfold NodupKeys; decide)⟩

/-- Counterexample to C6 as stated: the 2^32-th `Send` of a transport
whose first request is still pending issues seq 0 — not strictly larger
— and, with no existence check, `Store` silently replaces the live entry
keyed 0 rather than guarding against the duplicate. -/
theorem claim_C6_counterexample :
    (ClientTransport.Send ⟨1, 2 ^ 32 - 1, [(0, 7)], 8⟩ [65] (some []) true).1.pending
        = [(0, 8)] ∧
    (ClientTransport.Send ⟨1, 2 ^ 32 - 1, [(0, 7)], 8⟩ [65] (some []) true).1.seq = 0 ∧
    ¬ 2 ^ 32 - 1 < (ClientTransport.Send ⟨1, 2 ^ 32 - 1, [(0, 7)], 8⟩ [65]
        (some []) true).1.seq := by
  decide

/-- C7 (amended): every response frame the worker writes echoes the
request's seq and codec type and carries `MsgType` Response, but its
`bodyLen` is the encoded response length reduced modulo 2^32 by Go's
`uint32(len(result))` conversion — equal to the length itself only below
2^32 (see the counterexample). -/
theorem claim_C7 (handler : RPCMessage → Option RPCMessage) (header : Header)
    (body : List Nat) (h' : Header) (b' : List Nat)
    (hreq : Server.handleRequest handler header body = some (h', b')) :
    h'.CodecType = header.CodecType ∧ h'.MsgType = 1 ∧ h'.Seq = header.Seq ∧
    h'.BodyLen = b'.length % 2 ^ 32 := by
  obtain ⟨h1, h2, h3, h4, -⟩ :=
    Server.handleRequest_response_fields handler header body h' b' hreq
  exact ⟨h1, h2, h3, h4⟩

/-- Witness: the echoed fields on a concrete binary-codec request handled
by the identity handler. -/
theorem claim_C7_witness :
    (⟨1, 1, 5, 8⟩ : Header).CodecType = (⟨1, 0, 5, 8⟩ : Header).CodecType ∧
    (⟨1, 1, 5, 8⟩ : Header).MsgType = 1 ∧
    (⟨1, 1, 5, 8⟩ : Header).Seq = (⟨1, 0, 5, 8⟩ : Header).Seq ∧
    (⟨1, 1, 5, 8⟩ : Header).BodyLen = (BinaryCodec.Encode ⟨[], [], []⟩).length % 2 ^ 32 :=
  claim_C7 (fun m => some m) ⟨1, 0, 5, 8⟩ (BinaryCodec.Encode ⟨[], [], []⟩)
    ⟨1, 1, 5, 8⟩ (BinaryCodec.Encode ⟨[], [], []⟩) (by decide)

/-- Counterexample to C7 as stated: a handler whose encoded response is
2^32 + 8 bytes long gets a response header whose `BodyLen` is 8, not the
body's length. -/
theorem claim_C7_counterexample :
    ∃ hdr resp, Server.handleRequest (fun _ => some ⟨[], [], List.replicate 4294967296 0⟩)
        ⟨1, 0, 5, 8⟩ (BinaryCodec.Encode ⟨[], [], []⟩) = some (hdr, resp) ∧
      hdr.BodyLen ≠ resp.length := by
  have key : ∀ P : List Nat, P.length = 4294967296 →
      ∃ hdr resp, Server.handleRequest (fun _ => some ⟨[], [], P⟩)
          ⟨1, 0, 5, 8⟩ (BinaryCodec.Encode ⟨[], [], []⟩) = some (hdr, resp) ∧
        hdr.BodyLen ≠ resp.length := by
    intro P hP
    unfold Server.handleRequest
    have hcd : codecDecodeInto 1 (BinaryCodec.Encode ⟨[], [], []⟩) = some ⟨[], [], []⟩ := rfl
    simp only [hcd]
    refine ⟨_, _, rfl, ?_⟩
    show (codecEncode 1 ⟨[], [], P⟩).length % 2 ^ 32 ≠ (codecEncode 1 ⟨[], [], P⟩).length
    have hlen : (codecEncode 1 ⟨[], [], P⟩).length = 4294967304 := by
      show (BinaryCodec.Encode ⟨[], [], P⟩).length = 4294967304
      rw [BinaryCodec.encode_length]
      rw [hP, List.length_nil]
    rw [hlen]
    omega
  exact key _ (List.length_replicate _ _)

/-- C8: framer decode errors exactly on the streams that do not start
with a well-formed frame (magic `6d 72 70`, version 1, codec in `{0,1}`,
message type in `{0,1,2}`, and enough bytes for header plus declared
body); a bad magic yields a message containing "invalid magic", a bad
version one containing "unsupported version". -/
theorem claim_C8 (s : List Nat) :
    ((∃ e, Protocol.Decode s = .error e) ↔ ¬ Protocol.WellFormedFrame s) ∧
    (14 ≤ s.length → ¬(s.getD 0 0 = 0x6d ∧ s.getD 1 0 = 0x72 ∧ s.getD 2 0 = 0x70) →
      ∃ e, Protocol.Decode s = .error e ∧
        listContains (asciiBytes "invalid magic") e.msg = true) ∧
    (14 ≤ s.length → (s.getD 0 0 = 0x6d ∧ s.getD 1 0 = 0x72 ∧ s.getD 2 0 = 0x70) →
      s.getD 3 0 ≠ 0x01 →
      ∃ e, Protocol.Decode s = .error e ∧
        listContains (asciiBytes "unsupported version") e.msg = true) :=
  ⟨Protocol.decode_error_iff s,
   fun h14 hm => Protocol.decode_error_magic s h14 hm,
   fun h14 hm hv => Protocol.decode_error_version s h14 hm hv⟩

/-- Witness: the characterisation at an all-zero stream (bad magic) and a
correct-magic stream with version byte 2. -/
theorem claim_C8_witness :
    ((∃ e, Protocol.Decode (List.replicate 14 0) = .error e)
      ↔ ¬ Protocol.WellFormedFrame (List.replicate 14 0)) ∧
    (∃ e, Protocol.Decode (List.replicate 14 0) = .error e ∧
      listContains (asciiBytes "invalid magic") e.msg = true) ∧
    (∃ e, Protocol.Decode (0x6d :: 0x72 :: 0x70 :: 0x02 :: List.replicate 10 0)
        = .error e ∧
      listContains (asciiBytes "unsupported version") e.msg = true) :=
  ⟨(claim_C8 (List.replicate 14 0)).1,
   (claim_C8 (List.replicate 14 0)).2.1 (by decide) (by decide),
   (claim_C8 (0x6d :: 0x72 :: 0x70 :: 0x02 :: List.replicate 10 0)).2.2
     (by decide) (by decide) (by decide)⟩

/-- C9 (amended): the retry middleware returns the first successful or
non-retryable downstream result (or the last one after `n` retries),
re-invoking `next` only on errors containing "timeout" or "connection
refused"; the sleep before the i-th retry is `baseDelay * (1 << i)` in
Go's wrapping `int64` arithmetic — `durMul baseDelay (goShl1 i)`, which
is the mathematical `baseDelay * 2^i` only while it fits in an `int64`
(see the counterexample at `i = 63`). -/
theorem claim_C9 (next : Nat → RPCMessage) (n : Nat) (base : Int) :
    ∃ j, j ≤ n ∧ (RetryMiddleware.run next n base).1 = next j ∧
      (RetryMiddleware.run next n base).2
        = (List.range j).map (fun t => durMul base (goShl1 t)) ∧
      (∀ t, t < j → (next t).Error ≠ [] ∧ retryable (next t).Error = true) ∧
      (j < n → (next j).Error = [] ∨ retryable (next j).Error = false) :=
  RetryMiddleware.run_spec next n base

/-- Counterexample to C9 as stated: with `baseDelay = 1` and a handler
that always times out, the 63rd recorded sleep argument is `-2^63`, not
the claimed `baseDelay * 2^63`. -/
theorem claim_C9_counterexample :
    (RetryMiddleware.run (fun _ => ⟨[], asciiBytes "timeout", []⟩) 64 1).2.getD 63 0
        = -(2 ^ 63) ∧
    (1 : Int) * 2 ^ 63 ≠ -(2 ^ 63) := by
  constructor
  · decide
  · decide

/-- C10: `BinaryCodec.Decode` has no error-returning branch at all — its
only non-success outcome is the out-of-range panic, reached exactly on
the inputs whose own length prefixes overrun the buffer, such as the
empty slice or a method-length prefix exceeding the remaining bytes. -/
theorem claim_C10 (data : List Nat) :
    (BinaryCodec.Decode data = none ↔ ¬ BinaryCodec.WellFormedInput data) ∧
    BinaryCodec.Decode [] = none ∧
    BinaryCodec.Decode [0, 5] = none :=
  ⟨BinaryCodec.decode_none_iff data, rfl, rfl⟩

end MiniRPC
